/-
Verification of the tulip concurrency core (deb-python-trollius, src/tulip).

Shallow embedding of the data model and operations of:
  * src/tulip/futures.py      (Future state machine, callbacks, traceback logger)
  * src/tulip/tasks.py        (Task._step yield dispatch, wait_for / _wait)
  * src/tulip/streams.py      (StreamReader.read / readexactly)
  * src/tulip/parsers.py      (ParserBuffer.readuntil, StreamBuffer, lines parser)
  * src/tulip/selector_events.py (socket / TLS / datagram transports)

Python byte strings are modelled as `List Nat`, callbacks by opaque `Nat`
identifiers, and `call_soon` scheduling by explicit effect lists returned
alongside the updated state.  Exceptions are an explicit inductive type and
fallible methods return `Except Exc _`.
-/
import Mathlib

namespace Tulip

/-- Exceptions that appear in the modelled code paths. -/
inductive Exc where
  | cancelledError
  | timeoutError
  | invalidStateError
  | invalidTimeoutError
  | runtimeError
  | valueError          -- default `exc` of `ParserBuffer.readuntil` ("Line is too long.")
  | eofStream
  | userExc (n : Nat)
  deriving DecidableEq, Repr

/-- States of a `Future` (futures.py: `_PENDING`, `_CANCELLED`, `_FINISHED`). -/
inductive FState where
  | pending
  | cancelled
  | finished
  deriving DecidableEq, Repr

/-- Model of `tulip.futures.Future`.

`result?` / `exception?` are `_result` / `_exception`; `callbacks` is
`_callbacks` with callbacks as opaque `Nat` ids; `tbLogger` records whether a
live `_TracebackLogger` (`_tb_logger`) is attached; `timeoutHandle` records
whether an uncancelled `_timeout_handle` exists; `blocking` is `_blocking`;
`loopId` identifies the owning `_loop`. -/
structure Future where
  state : FState
  result? : Option Nat
  exception? : Option Exc
  callbacks : List Nat
  tbLogger : Bool
  timeoutHandle : Bool
  blocking : Bool
  loopId : Nat
  deriving DecidableEq, Repr

/-- A freshly constructed pending future on loop `l` (futures.py `__init__`
with no timeout). -/
def Future.mk0 (l : Nat) : Future :=
  { state := .pending, result? := none, exception? := none, callbacks := [],
    tbLogger := false, timeoutHandle := false, blocking := false, loopId := l }

/-- `Future._schedule_callbacks`: cancel the timeout handle, copy the callback
list, clear it, and hand every callback to `loop.call_soon`.  Returns the
updated future and the list of callbacks passed to `call_soon` (in order). -/
def Future.scheduleCallbacks (f : Future) : Future × List Nat :=
  let f1 := { f with timeoutHandle := false }
  if f1.callbacks = [] then (f1, [])
  else ({ f1 with callbacks := [] }, f1.callbacks)

/-- `Future.cancel`: on a non-PENDING future return `false` and change
nothing; otherwise move to CANCELLED, schedule the callbacks, return `true`.
Result: (updated future, return value, callbacks handed to `call_soon`). -/
def Future.cancel (f : Future) : Future × Bool × List Nat :=
  if f.state ≠ .pending then (f, false, [])
  else
    let (f1, cbs) := Future.scheduleCallbacks { f with state := .cancelled }
    (f1, true, cbs)

/-- `Future.set_result`: raises `InvalidStateError` unless PENDING; otherwise
stores the result, moves to FINISHED and schedules the callbacks. -/
def Future.set_result (v : Nat) (f : Future) : Except Exc (Future × List Nat) :=
  if f.state ≠ .pending then .error .invalidStateError
  else
    let (f1, cbs) := Future.scheduleCallbacks
      { f with result? := some v, state := .finished }
    .ok (f1, cbs)

/-- `Future.set_exception`: raises `InvalidStateError` unless PENDING;
otherwise stores the exception, attaches a `_TracebackLogger`, moves to
FINISHED, schedules the callbacks, and additionally schedules
`_tb_logger.activate` via `call_soon` (the returned `Bool`). -/
def Future.set_exception (e : Exc) (f : Future) :
    Except Exc (Future × List Nat × Bool) :=
  if f.state ≠ .pending then .error .invalidStateError
  else
    let (f1, cbs) := Future.scheduleCallbacks
      { f with exception? := some e, tbLogger := true, state := .finished }
    .ok (f1, cbs, true)

/-- `Future.result(timeout)`: raise `InvalidTimeoutError` when `timeout ≠ 0`;
`CancelledError` when CANCELLED; `InvalidStateError` when not FINISHED;
otherwise clear the traceback logger and either re-raise the stored exception
or return the stored result.  Returns the updated future alongside the
outcome, because the logger is cleared even on the re-raising path. -/
def Future.resultCall (timeout : Nat) (f : Future) :
    Future × Except Exc (Option Nat) :=
  if timeout ≠ 0 then (f, .error .invalidTimeoutError)
  else if f.state = .cancelled then (f, .error .cancelledError)
  else if f.state ≠ .finished then (f, .error .invalidStateError)
  else
    let f1 := { f with tbLogger := false }
    match f.exception? with
    | some e => (f1, .error e)
    | none => (f1, .ok f.result?)

/-- `Future.exception(timeout)`: like `result` but returns the stored
exception (possibly `none`) instead of raising it. -/
def Future.exceptionCall (timeout : Nat) (f : Future) :
    Future × Except Exc (Option Exc) :=
  if timeout ≠ 0 then (f, .error .invalidTimeoutError)
  else if f.state = .cancelled then (f, .error .cancelledError)
  else if f.state ≠ .finished then (f, .error .invalidStateError)
  else ({ f with tbLogger := false }, .ok f.exception?)

/-- `Future.add_done_callback`: if the future is already done, hand the
callback to `call_soon`; otherwise append it to the callback list.  Returns
(updated future, callbacks handed to `call_soon`). -/
def Future.add_done_callback (fn : Nat) (f : Future) : Future × List Nat :=
  if f.state ≠ .pending then (f, [fn])
  else ({ f with callbacks := f.callbacks ++ [fn] }, [])

/-- `Future.remove_done_callback`: drop every occurrence of `fn`, returning
the number removed. -/
def Future.remove_done_callback (fn : Nat) (f : Future) : Future × Nat :=
  let filtered := f.callbacks.filter (fun g => g ≠ fn)
  (({ f with callbacks := filtered }), f.callbacks.length - filtered.length)

/-- The public mutating operations of `Future`, for stating the state-machine
invariant over every method of the class. -/
inductive FOp where
  | cancel
  | setResult (v : Nat)
  | setException (e : Exc)
  | addDoneCallback (fn : Nat)
  | removeDoneCallback (fn : Nat)
  | resultCall (timeout : Nat)
  | exceptionCall (timeout : Nat)
  deriving DecidableEq, Repr

/-- The future resulting from running one operation (exceptions raised by the
operation leave the returned future as the model returns it). -/
def FOp.apply (op : FOp) (f : Future) : Future :=
  match op with
  | .cancel => (Future.cancel f).1
  | .setResult v =>
      match Future.set_result v f with
      | .ok (f1, _) => f1
      | .error _ => f
  | .setException e =>
      match Future.set_exception e f with
      | .ok (f1, _, _) => f1
      | .error _ => f
  | .addDoneCallback fn => (Future.add_done_callback fn f).1
  | .removeDoneCallback fn => (Future.remove_done_callback fn f).1
  | .resultCall t => (Future.resultCall t f).1
  | .exceptionCall t => (Future.exceptionCall t f).1

/-! ## Task._step yield dispatch (tasks.py lines 115–144) -/

/-- Callback id standing for the bound method `self._wakeup`. -/
def wakeupCb : Nat := 0

/-- Task-specific state on top of the inherited `Future`
(tasks.py `Task.__init__`): `_fut_waiter` and `_must_cancel`. -/
structure TaskS where
  fut : Future
  futWaiter : Option Future
  mustCancel : Bool
  deriving DecidableEq, Repr

/-- The value produced by `coro.send`/`next(coro)` in `Task._step`, as the
dispatch in the `else:` branch distinguishes it: a `Future` (with its
`_blocking` flag and owning loop), `None`, a generator, or anything else. -/
inductive StepYield where
  | futY (g : Future)
  | noneY
  | genY
  | otherY
  deriving DecidableEq, Repr

/-- What the `else:` branch of `Task._step` does with the yielded value. -/
inductive StepEff where
  | attached (schedWakeup : List Nat)
      -- cleared the blocking flag, `add_done_callback(self._wakeup)`
      -- (whose `call_soon` hand-offs are recorded), `_fut_waiter := result`
  | callSoonStep                 -- `call_soon(self._step)`
  | callSoonStepError (e : Exc)  -- `call_soon(self._step, None, RuntimeError(…))`
  deriving DecidableEq, Repr

/-- The `else:` branch of `Task._step` (tasks.py lines 115–144).  Returns the
updated task, the updated yielded future (when one was yielded), and the
effect performed. -/
def TaskS.stepDispatch (t : TaskS) (y : StepYield) :
    TaskS × Option Future × StepEff :=
  match y with
  | .futY g =>
      if g.blocking then
        let g1 := { g with blocking := false }
        let (g2, sched) := Future.add_done_callback wakeupCb g1
        ({ t with futWaiter := some g2 }, some g2, .attached sched)
      else (t, some g, .callSoonStepError .runtimeError)
  | .noneY => (t, none, .callSoonStep)
  | .genY => (t, none, .callSoonStepError .runtimeError)
  | .otherY => (t, none, .callSoonStepError .runtimeError)

/-! ## wait_for (tasks.py lines 192–256)

`wait_for(fut, timeout)` runs `_wait([fut], timeout, FIRST_COMPLETED, loop)`:
a fresh `waiter` future is created, `loop.call_later(timeout, waiter.cancel)`
arms a timeout handle, and `_on_completion` is attached to the child; the
caller suspends on `yield from waiter`, swallowing `CancelledError`.
`_on_completion` decrements the counter and — with FIRST_COMPLETED, always —
cancels the timeout handle and the waiter.  The run below plays the two
possible timed events (child completion, timeout expiry) in time order
against that state, using the `Future` operations above, until the waiter is
done, then performs `_wait`'s epilogue and `wait_for`'s return/raise. -/

/-- The joint state of `_wait`: the child future, the waiter future, the
`counter` closed over by `_on_completion`, and whether the timeout handle is
still armed. -/
structure WaitSt where
  child : Future
  waiter : Future
  counter : Nat
  timeoutHandleActive : Bool
  deriving DecidableEq, Repr

/-- The timed events that can fire while `_wait` is suspended. -/
inductive WEvent where
  | childCompletes
  | timeoutFires
  deriving DecidableEq, Repr

/-- Process one timed event.

`childCompletes`: `fut.set_result(childVal)` runs, then its scheduled
callback `_on_completion`: `counter -= 1`; with `return_when =
FIRST_COMPLETED` the guard `counter <= 0 or return_when == FIRST_COMPLETED`
is true, so the timeout handle is cancelled and `waiter.cancel()` runs.

`timeoutFires`: if the handle was not cancelled, `waiter.cancel()` runs. -/
def WaitSt.procEvent (childVal : Nat) (e : WEvent) (s : WaitSt) : WaitSt :=
  match e with
  | .childCompletes =>
      match Future.set_result childVal s.child with
      | .error _ => s
      | .ok (c1, _) =>
          let s1 := { s with child := c1, counter := s.counter - 1 }
          let s2 := { s1 with timeoutHandleActive := false }
          { s2 with waiter := (Future.cancel s2.waiter).1 }
  | .timeoutFires =>
      if s.timeoutHandleActive then
        { s with waiter := (Future.cancel s.waiter).1 }
      else s

/-- Run events in time order until the waiter is done (at which point
`yield from waiter` resumes and `_wait` proceeds to its epilogue). -/
def WaitSt.runEvents (childVal : Nat) : List WEvent → WaitSt → WaitSt
  | [], s => s
  | e :: rest, s =>
      if s.waiter.state ≠ .pending then s
      else WaitSt.runEvents childVal rest (s.procEvent childVal e)

/-- The timed events of the `wait_for` scenario in firing order: the child
completes at `tc` (if ever), `waiter.cancel` is scheduled at `timeout`. -/
def waitEvents (completesAt : Option Nat) (timeout : Nat) : List WEvent :=
  match completesAt with
  | none => [.timeoutFires]
  | some tc =>
      if tc < timeout then [.childCompletes, .timeoutFires]
      else [.timeoutFires, .childCompletes]

deriving instance DecidableEq for Except

/-- Observable outcome of `wait_for`: what it returns or raises, and the
state the child future is left in. -/
structure WaitForOut where
  outcome : Except Exc (Option Nat)
  childState : FState
  deriving DecidableEq, Repr

/-- `wait_for(fut, timeout)` on loop `loopId`, for a pending child `fut` that
would complete with `childVal` at time `completesAt` (or never, `none`).
After the waiter completes, `_wait` computes `done`/`pending` from
`fut.done()`; `wait_for` returns `done.pop().result()` when `done` is
nonempty and raises `TimeoutError` otherwise.  Note `_wait` and `wait_for`
never call `fut.cancel()`. -/
def wait_for_run (loopId : Nat) (completesAt : Option Nat) (childVal : Nat)
    (timeout : Nat) : WaitForOut :=
  let s0 : WaitSt :=
    { child := Future.mk0 loopId, waiter := Future.mk0 loopId,
      counter := 1, timeoutHandleActive := true }
  let s := WaitSt.runEvents childVal (waitEvents completesAt timeout) s0
  if s.child.state ≠ .pending then
    { outcome := (Future.resultCall 0 s.child).2, childState := s.child.state }
  else
    { outcome := .error .timeoutError, childState := s.child.state }

/-! ## StreamReader (streams.py)

The `waiter` future that suspends the reading coroutine is not modelled;
`read`/`readexactly` below give the post-wait behaviour, and the theorems
hypothesise the corresponding loop-exit condition (`byte_count >= n or
eof`). -/

/-- Model of `tulip.streams.StreamReader`. -/
structure SReader where
  limit : Nat
  buffer : List (List Nat)
  byteCount : Nat
  eof : Bool
  exception? : Option Exc
  deriving DecidableEq, Repr

/-- A fresh reader (streams.py `__init__`). -/
def SReader.mk0 (limit : Nat := 2 ^ 16) : SReader :=
  { limit := limit, buffer := [], byteCount := 0, eof := false,
    exception? := none }

/-- `StreamReader.feed_data`: empty data is ignored, otherwise the chunk is
appended and `byte_count` increased. -/
def SReader.feed_data (data : List Nat) (r : SReader) : SReader :=
  if data = [] then r
  else { r with buffer := r.buffer ++ [data],
                byteCount := r.byteCount + data.length }

/-- `StreamReader.feed_eof`. -/
def SReader.feed_eof (r : SReader) : SReader :=
  { r with eof := true }

/-- The `parts` loop of `StreamReader.read` for `0 < n < byte_count`: pop
chunks off the deque until `n` bytes are taken, splitting the last chunk and
pushing the remainder back.  Returns (bytes taken, remaining deque). -/
def takeParts : Nat → List (List Nat) → List Nat × List (List Nat)
  | _, [] => ([], [])
  | n, d :: rest =>
      if n = 0 then ([], d :: rest)
      else if d.length ≤ n then
        let (t, b) := takeParts (n - d.length) rest
        (d ++ t, b)
      else (d.take n, d.drop n :: rest)

/-- `StreamReader.read(n)` after its waiting phase: raise a stored exception;
`n = 0` returns `b''`; `n < 0` or `byte_count <= n` drains the whole buffer;
otherwise exactly `n` bytes are taken off the front. -/
def SReader.read (n : Int) (r : SReader) : Except Exc (List Nat × SReader) :=
  match r.exception? with
  | some e => .error e
  | none =>
      if n = 0 then .ok ([], r)
      else if n < 0 ∨ (r.byteCount : Int) ≤ n then
        .ok (r.buffer.flatten, { r with buffer := [], byteCount := 0 })
      else
        let (parts, buf) := takeParts n.toNat r.buffer
        .ok (parts,
          { r with buffer := buf, byteCount := r.byteCount - parts.length })

/-- `StreamReader.readexactly(n)` after its waiting loop (`while byte_count <
n and not eof`): raise a stored exception; `n <= 0` returns `b''`; otherwise
delegate to `read(n)`. -/
def SReader.readexactly (n : Int) (r : SReader) :
    Except Exc (List Nat × SReader) :=
  match r.exception? with
  | some e => .error e
  | none =>
      if n ≤ 0 then .ok ([], r)
      else r.read n

/-- Feed a list of chunks to a reader in order. -/
def SReader.feedAll (chunks : List (List Nat)) (r : SReader) : SReader :=
  chunks.foldl (fun q c => q.feed_data c) r

/-! ## Selector transports (selector_events.py)

`constants.LOG_THRESHOLD_FOR_CONNLOST_WRITES` lives in `tulip/constants.py`,
which is not part of the sources here; the threshold is therefore passed as
an explicit parameter, per the spec's "warn after a threshold". -/

/-- Common state of `_SelectorTransport` and its subclasses: the write
buffer, the `_conn_lost` counter, and the `_closing` / `_writing` flags. -/
structure STrans where
  buffer : List (List Nat)
  connLost : Nat
  closing : Bool
  writing : Bool
  deriving DecidableEq, Repr

/-- Outcome of an attempted `sock.send(data)`. -/
inductive SendRes where
  | sent (n : Nat)       -- returned n
  | wouldBlock           -- BlockingIOError / InterruptedError
  | osError              -- some other OSError
  deriving DecidableEq, Repr

/-- Externally visible effects of one transport call: the argument passed to
`sock.send` (if a send was attempted), whether the conn-lost warning was
logged, and the selector/loop operations performed. -/
structure TransEff where
  sentData : Option (List Nat)
  warned : Bool
  addedWriter : Bool
  removedWriter : Bool
  removedReader : Bool
  scheduledConnLost : Bool
  deriving DecidableEq, Repr

/-- No effect. -/
def TransEff.none0 : TransEff :=
  { sentData := none, warned := false, addedWriter := false,
    removedWriter := false, removedReader := false,
    scheduledConnLost := false }

/-- `_SelectorTransport._force_close` (lines 349–357): make the transport
closing, bump `_conn_lost`, unregister both directions, drop the buffer, and
schedule `_call_connection_lost`. -/
def STrans.forceClose (t : STrans) : STrans × TransEff :=
  if t.closing then (t, TransEff.none0)
  else
    ({ t with closing := true, connLost := t.connLost + 1, buffer := [] },
     { TransEff.none0 with removedWriter := true, removedReader := true,
                           scheduledConnLost := true })

/-- `_SelectorTransport.close` (lines 335–342): make the transport closing,
bump `_conn_lost`, unregister the reader, and schedule
`_call_connection_lost` when the buffer is already empty. -/
def STrans.close (t : STrans) : STrans × TransEff :=
  if t.closing then (t, TransEff.none0)
  else
    ({ t with closing := true, connLost := t.connLost + 1 },
     { TransEff.none0 with removedReader := true,
                           scheduledConnLost := t.buffer = [] })

/-- `_SelectorSocketTransport.write` (lines 397–424).  `so` is the outcome
the socket would give to an immediate `send`. -/
def STrans.write (threshold : Nat) (so : SendRes) (data : List Nat)
    (t : STrans) : STrans × TransEff :=
  if data = [] then (t, TransEff.none0)
  else if t.connLost ≠ 0 then
    ({ t with connLost := t.connLost + 1 },
     { TransEff.none0 with warned := threshold ≤ t.connLost })
  else if t.buffer = [] ∧ t.writing then
    match so with
    | .osError =>
        -- `_fatal_error(exc)`, which `_force_close`s, then return
        let (t1, eff) := t.forceClose
        (t1, { eff with sentData := some data })
    | .wouldBlock =>
        -- n = 0: not the full chunk; register the writer and buffer it all
        ({ t with buffer := [data] },
         { TransEff.none0 with sentData := some data, addedWriter := true })
    | .sent n =>
        if n = data.length then
          (t, { TransEff.none0 with sentData := some data })
        else
          ({ t with buffer := [data.drop n] },
           { TransEff.none0 with sentData := some data, addedWriter := true })
  else
    ({ t with buffer := t.buffer ++ [data] }, TransEff.none0)

/-- `_SelectorSslTransport.write` (lines 563–575): empty data returns,
`_conn_lost` drops and counts as in the socket case, otherwise the data is
only appended to the buffer (the `_on_ready` callback drains it). -/
def STrans.sslWrite (threshold : Nat) (data : List Nat) (t : STrans) :
    STrans × TransEff :=
  if data = [] then (t, TransEff.none0)
  else if t.connLost ≠ 0 then
    ({ t with connLost := t.connLost + 1 },
     { TransEff.none0 with warned := threshold ≤ t.connLost })
  else
    ({ t with buffer := t.buffer ++ [data] }, TransEff.none0)

/-- Outcome of an attempted datagram `send`/`sendto`. -/
inductive DSendRes where
  | okSent
  | refused              -- ConnectionRefusedError
  | wouldBlock           -- BlockingIOError / InterruptedError
  | otherErr             -- any other exception
  deriving DecidableEq, Repr

/-- `_SelectorDatagramTransport.sendto` (lines 609–640).  `hasAddress` is
whether `_address` was given at construction; datagram buffer entries keep
only the payload (the address tag is opaque). -/
def STrans.sendto (threshold : Nat) (so : DSendRes) (hasAddress : Bool)
    (data : List Nat) (t : STrans) : STrans × TransEff :=
  if data = [] then (t, TransEff.none0)
  else if t.connLost ≠ 0 ∧ hasAddress then
    ({ t with connLost := t.connLost + 1 },
     { TransEff.none0 with warned := threshold ≤ t.connLost })
  else if t.buffer = [] then
    match so with
    | .okSent => (t, { TransEff.none0 with sentData := some data })
    | .refused =>
        -- `if self._address: self._fatal_error(exc)`; return either way
        if hasAddress then
          let (t1, eff) := t.forceClose
          (t1, { eff with sentData := some data })
        else (t, { TransEff.none0 with sentData := some data })
    | .wouldBlock =>
        -- register the writer, then fall through to `buffer.append`
        ({ t with buffer := t.buffer ++ [data] },
         { TransEff.none0 with sentData := some data, addedWriter := true })
    | .otherErr =>
        let (t1, eff) := t.forceClose
        (t1, { eff with sentData := some data })
  else
    ({ t with buffer := t.buffer ++ [data] }, TransEff.none0)

/-! ## StreamBuffer attachment bookkeeping (parsers.py)

For the `_parser` / `_parser_buffer` invariant the parser generator itself
is abstracted: what matters is only how each `send`/`throw` into it can
terminate, which the oracles below enumerate. -/

/-- How `parser.send(data)` can leave the generator: suspended again at a
yield, finished (`StopIteration`), or raising some other exception. -/
inductive PSendOut where
  | suspended
  | stopIteration
  | raised
  deriving DecidableEq, Repr

/-- How `parser.throw(EofStream())` can end: `StopIteration`, the `EofStream`
propagating back out, or some other exception. -/
inductive PThrowOut where
  | stopIteration
  | eofStream
  | raised
  deriving DecidableEq, Repr

/-- Attachment/bookkeeping state of `StreamBuffer`: whether `_parser` and
`_parser_buffer` are non-`None`, plus the `_eof` flag and whether
`_exception` is set. -/
structure SBCtl where
  parser : Bool
  parserBuffer : Bool
  eof : Bool
  excSet : Bool
  deriving DecidableEq, Repr

/-- `StreamBuffer.__init__`. -/
def SBCtl.mk0 : SBCtl :=
  { parser := false, parserBuffer := false, eof := false, excSet := false }

/-- `StreamBuffer.set_exception` (lines 94–100): store the exception; if a
DataBuffer is attached, put the exception on it and drop both fields. -/
def SBCtl.set_exception (s : SBCtl) : SBCtl :=
  let s1 := { s with excSet := true }
  if s1.parserBuffer then { s1 with parser := false, parserBuffer := false }
  else s1

/-- `StreamBuffer.feed_data` (lines 102–118): empty data returns; with a
parser attached, `send` the data — `StopIteration` or any exception detaches
parser and DataBuffer; without a parser the bytes go to the ParserBuffer. -/
def SBCtl.feed_data (dataNonempty : Bool) (out : PSendOut) (s : SBCtl) :
    SBCtl :=
  if ¬dataNonempty then s
  else if s.parser then
    match out with
    | .suspended => s
    | .stopIteration => { s with parser := false, parserBuffer := false }
    | .raised => { s with parser := false, parserBuffer := false }
  else s

/-- `StreamBuffer.feed_eof` (lines 120–135): with a parser attached, throw
`EofStream` into it (whatever happens, both fields are then cleared); set
`_eof` in all cases. -/
def SBCtl.feed_eof (_out : PThrowOut) (s : SBCtl) : SBCtl :=
  if s.parser then
    { s with parser := false, parserBuffer := false, eof := true }
  else { s with eof := true }

/-- `StreamBuffer.unset_parser` (lines 166–180): throw `EofStream` into the
parser; the `finally:` clears both fields regardless of the outcome. -/
def SBCtl.unset_parser (_out : PThrowOut) (s : SBCtl) : SBCtl :=
  { s with parser := false, parserBuffer := false }

/-- `StreamBuffer.set_parser` (lines 137–164): detach any previous parser;
if an exception is set, it goes to the fresh DataBuffer and nothing is
attached; otherwise prime the parser — on suspension both fields are set
(and immediately unset again if `_eof` was already true). -/
def SBCtl.set_parser (throw1 : PThrowOut) (prime : PSendOut)
    (throw2 : PThrowOut) (s : SBCtl) : SBCtl :=
  let s1 := if s.parser then s.unset_parser throw1 else s
  if s1.excSet then s1
  else
    match prime with
    | .stopIteration => s1
    | .raised => s1
    | .suspended =>
        let s2 := { s1 with parser := true, parserBuffer := true }
        if s2.eof then s2.unset_parser throw2 else s2

/-! ## ParserBuffer and the lines-parser pipeline (parsers.py)

`ParserBuffer` is a `bytearray` subclass with a logical read cursor
(`offset`) and a byte count between cursor and end (`size`).  Its generator
methods (`readuntil` etc.) scan the buffer and `yield` when more input is
needed; resuming them feeds the received chunk through `_feed_data` and
rescans.  The definitions below split `readuntil` into its scan step
(`readuntilScan`, one pass over the current buffer) and drivers that feed
chunks between scans, which is exactly how the suspended generator behaves. -/

/-- Physical state of a `ParserBuffer`: the underlying byte array, the
cursor `offset`, and the maintained count `size`. -/
structure PBuf where
  data : List Nat
  offset : Nat
  size : Nat
  deriving DecidableEq, Repr

/-- A fresh, empty `ParserBuffer`. -/
def PBuf.mk0 : PBuf := { data := [], offset := 0, size := 0 }

/-- The unread bytes, `self[offset:]`. -/
def PBuf.pending (pb : PBuf) : List Nat := pb.data.drop pb.offset

/-- `ParserBuffer._shrink`: discard the consumed prefix. -/
def PBuf.shrink (pb : PBuf) : PBuf :=
  if pb.offset ≠ 0 then
    { data := pb.data.drop pb.offset, offset := 0,
      size := (pb.data.drop pb.offset).length }
  else pb

/-- `ParserBuffer._feed_data` body (one received chunk): skip empty chunks,
otherwise bump `size`, extend the array, and shrink once the array outgrows
5120 bytes with a nonzero cursor. -/
def PBuf.feed_data (chunk : List Nat) (pb : PBuf) : PBuf :=
  if chunk = [] then pb
  else
    let pb1 := { pb with data := pb.data ++ chunk,
                         size := pb.size + chunk.length }
    if pb1.offset ≠ 0 ∧ 5120 < pb1.data.length then pb1.shrink else pb1

/-- `bytearray.find(stop, start)`: index of the first occurrence of `stop`
at or after `start`, if any. -/
def findFrom (l stop : List Nat) (start : Nat) : Option Nat :=
  if h : start + stop.length ≤ l.length then
    if (l.drop start).take stop.length = stop then some start
    else findFrom l stop (start + 1)
  else none
termination_by l.length + 1 - start
decreasing_by omega

/-- One scan of `ParserBuffer.readuntil(stop, limit, exc)` over the current
buffer: either a line is returned (and consumed), the limit is exceeded
(`raise exc('Line is too long.')`), or the generator falls through to
`(yield)` to await more data. -/
inductive RUOut where
  | line (bs : List Nat) (pb : PBuf)
  | tooLong
  | needMore (pb : PBuf)
  deriving DecidableEq, Repr

/-- The body of `readuntil`'s `while True:` up to its `yield`
(parsers.py lines 320–342). -/
def PBuf.readuntilScan (stop : List Nat) (limit : Option Nat) (pb : PBuf) :
    RUOut :=
  match findFrom pb.data stop pb.offset with
  | some pos =>
      let en := pos + stop.length
      let sz := en - pb.offset
      let tooBig : Bool := match limit with
        | some l => decide (l < sz)
        | none => false
      if tooBig then .tooLong
      else .line ((pb.data.drop pb.offset).take sz)
             { pb with offset := en, size := pb.size - sz }
  | none =>
      let tooBig : Bool := match limit with
        | some l => decide (l < pb.size)
        | none => false
      if tooBig then .tooLong else .needMore pb

/-- Observable outcome of driving a single `readuntil` call with a sequence
of chunks: the line it returns, the "line too long" error, or — when the
chunks run out first — the unread residue it is still holding. -/
inductive RUObs where
  | line (bs : List Nat)
  | tooLong
  | needMoreResidue (residue : List Nat)
  deriving DecidableEq, Repr

/-- Drive one `readuntil(stop, limit)` call: scan, and while the generator
yields for more data, feed it the next chunk and rescan. -/
def driveReaduntil (stop : List Nat) (limit : Option Nat) :
    List (List Nat) → PBuf → RUObs
  | chunks, pb =>
      match pb.readuntilScan stop limit with
      | .line bs _ => .line bs
      | .tooLong => .tooLong
      | .needMore pb1 =>
          match chunks with
          | [] => .needMoreResidue pb1.pending
          | c :: rest => driveReaduntil stop limit rest (pb1.feed_data c)

/-- The resumption loop of a delimiter parser between two suspensions: each
received chunk makes `readuntil` rescan; every complete line found is fed to
the output DataBuffer and `readuntil` is entered again on the same buffer
(`lines_parser`, parsers.py lines 377–385); this repeats until the scan
either needs more data or raises.  Returns (lines produced, buffer state,
whether the limit error was raised).  `fuel` bounds the iteration count; any
`fuel > pb.size` is enough since each line consumes at least one byte. -/
def extractLoop (stop : List Nat) (limit : Option Nat) :
    Nat → PBuf → List (List Nat) × PBuf × Bool
  | 0, pb => ([], pb, false)
  | fuel + 1, pb =>
      match pb.readuntilScan stop limit with
      | .line bs pb1 =>
          let r := extractLoop stop limit fuel pb1
          (bs :: r.1, r.2.1, r.2.2)
      | .tooLong => ([], pb, true)
      | .needMore pb1 => ([], pb1, false)

/-- The full StreamBuffer + `lines_parser` + DataBuffer pipeline state:
the shared `ParserBuffer`, the DataBuffer contents (`items`, `outEof`,
`outExc`), whether the parser is still attached, and `StreamBuffer._eof`. -/
structure LinesPipe where
  buf : PBuf
  items : List (List Nat)
  outEof : Bool
  outExc : Bool
  attached : Bool
  sbEof : Bool
  deriving DecidableEq, Repr

/-- `StreamBuffer.set_parser(lines_parser(...))` on a fresh StreamBuffer:
priming the parser runs `readuntil` on the (empty) buffer until it suspends
(or raises, detaching immediately). -/
def LinesPipe.init (stop : List Nat) (limit : Option Nat) : LinesPipe :=
  let r := extractLoop stop limit (PBuf.mk0.size + 1) PBuf.mk0
  { buf := r.2.1, items := r.1, outEof := false, outExc := r.2.2,
    attached := !r.2.2, sbEof := false }

/-- `StreamBuffer.feed_data(chunk)` with the lines parser attached: empty
data returns; otherwise `parser.send(chunk)` resumes `readuntil` at its
`yield`, which feeds the chunk into the ParserBuffer and extracts every now
complete line; a limit violation propagates out of the parser, setting the
exception on the DataBuffer and detaching.  With no parser attached the
bytes are fed to the ParserBuffer directly. -/
def LinesPipe.feed (stop : List Nat) (limit : Option Nat)
    (chunk : List Nat) (p : LinesPipe) : LinesPipe :=
  if chunk = [] then p
  else if p.attached then
    let pb1 := p.buf.feed_data chunk
    let r := extractLoop stop limit (pb1.size + 1) pb1
    if r.2.2 then
      { p with buf := r.2.1, items := p.items ++ r.1, outExc := true,
               attached := false }
    else { p with buf := r.2.1, items := p.items ++ r.1 }
  else { p with buf := p.buf.feed_data chunk }

/-- `StreamBuffer.feed_eof` with the lines parser: `EofStream` is thrown
into the parser at its `yield`; `lines_parser` does not catch it, so it
propagates and `feed_eof` is called on the DataBuffer; the parser is
detached and `_eof` set.  With no parser only `_eof` is set. -/
def LinesPipe.feedEof (p : LinesPipe) : LinesPipe :=
  if p.attached then
    { p with outEof := true, attached := false, sbEof := true }
  else { p with sbEof := true }

/-- Feed a list of chunks in order. -/
def LinesPipe.feedAll (stop : List Nat) (limit : Option Nat)
    (chunks : List (List Nat)) (p : LinesPipe) : LinesPipe :=
  chunks.foldl (fun q c => q.feed stop limit c) p

/-- The observable DataBuffer contents after a run: the framed items, the
eof flag, and whether an exception was set. -/
def LinesPipe.obs (p : LinesPipe) : List (List Nat) × Bool × Bool :=
  (p.items, p.outEof, p.outExc)

/-! ### Logical view of ParserBuffer

`PBuf` above carries the physical representation (array + cursor + count);
the proofs relate it to a canonical logical view — the unread byte list —
through the well-formedness predicate `PBuf.wf` and the logical analogues
`scanL` / `driveL` / `extractL` below. -/

/-- Representation invariant of `ParserBuffer`: the cursor is in range and
`size` counts the unread bytes. -/
def PBuf.wf (pb : PBuf) : Prop :=
  pb.offset ≤ pb.data.length ∧ pb.size = pb.data.length - pb.offset

/-- `stop` occurs in `l` at index `i`. -/
def matchAt (l stop : List Nat) (i : Nat) : Prop :=
  i + stop.length ≤ l.length ∧ (l.drop i).take stop.length = stop

/-- Logical outcome of one `readuntil` scan over the unread bytes. -/
inductive LScan where
  | line (bs rest : List Nat)
  | tooLong
  | needMore
  deriving DecidableEq, Repr

/-- One `readuntil` scan expressed on the logical view. -/
def scanL (stop : List Nat) (limit : Option Nat) (pending : List Nat) :
    LScan :=
  match findFrom pending stop 0 with
  | some pos =>
      let en := pos + stop.length
      let tooBig : Bool := match limit with
        | some l => decide (l < en)
        | none => false
      if tooBig then .tooLong else .line (pending.take en) (pending.drop en)
  | none =>
      let tooBig : Bool := match limit with
        | some l => decide (l < pending.length)
        | none => false
      if tooBig then .tooLong else .needMore

/-- Driving one `readuntil` call on the logical view. -/
def driveL (stop : List Nat) (limit : Option Nat) :
    List (List Nat) → List Nat → RUObs
  | chunks, pending =>
      match scanL stop limit pending with
      | .line bs _ => .line bs
      | .tooLong => .tooLong
      | .needMore =>
          match chunks with
          | [] => .needMoreResidue pending
          | c :: rest => driveL stop limit rest (pending ++ c)

/-- The delimiter-parser resumption loop on the logical view. -/
def extractL (stop : List Nat) (limit : Option Nat) :
    Nat → List Nat → List (List Nat) × List Nat × Bool
  | 0, pending => ([], pending, false)
  | fuel + 1, pending =>
      match scanL stop limit pending with
      | .line bs rest =>
          let r := extractL stop limit fuel rest
          (bs :: r.1, r.2.1, r.2.2)
      | .tooLong => ([], pending, true)
      | .needMore => ([], pending, false)

/-- All lines extractable from `pending`, with the residue and the limit
error flag (`pending.length + 1` scan steps always suffice for a nonempty
delimiter). -/
def linesOfL (stop : List Nat) (limit : Option Nat) (pending : List Nat) :
    List (List Nat) × List Nat × Bool :=
  extractL stop limit (pending.length + 1) pending

/-- Simulation invariant tying a pipeline state to the bytes fed so far:
the DataBuffer holds exactly the lines of `S`, the error flag matches, the
parser stays attached exactly while no error occurred, no eof was seen, and
the buffer is well-formed holding the unconsumed residue. -/
def PipeInv (stop : List Nat) (limit : Option Nat) (S : List Nat)
    (p : LinesPipe) : Prop :=
  p.items = (linesOfL stop limit S).1 ∧
  p.outExc = (linesOfL stop limit S).2.2 ∧
  (p.attached = true ↔ (linesOfL stop limit S).2.2 = false) ∧
  p.outEof = false ∧ p.sbEof = false ∧ p.buf.wf ∧
  ((linesOfL stop limit S).2.2 = false →
    p.buf.pending = (linesOfL stop limit S).2.1)

/-! ### readsome-based echo parser

`ParserBuffer.readsome` (parsers.py lines 304–318) returns whatever bytes
are currently buffered, yielding only while the buffer is empty.  The echo
parser below is a conforming parser built solely from this module
primitive —

    def echo_parser():
        out, buf = yield
        while True:
            out.feed_data((yield from buf.readsome()))

— and under it the DataBuffer contents frame on the chunk boundaries. -/

/-- One activation of `ParserBuffer.readsome()` (no size argument): if any
bytes are buffered, return and consume them all; otherwise fall through to
`(yield)`. -/
def PBuf.readsomeScan (pb : PBuf) : Option (List Nat × PBuf) :=
  if 0 < pb.size then
    some ((pb.data.drop pb.offset).take pb.size,
          { pb with offset := pb.offset + pb.size, size := 0 })
  else none

/-- StreamBuffer pipeline state for the echo parser. -/
structure EchoPipe where
  buf : PBuf
  items : List (List Nat)
  outEof : Bool
  attached : Bool
  sbEof : Bool
  deriving DecidableEq, Repr

/-- `set_parser(echo_parser())` on a fresh StreamBuffer: priming runs
`readsome` on the empty buffer, which suspends at its `yield`. -/
def EchoPipe.init : EchoPipe :=
  { buf := PBuf.mk0, items := [], outEof := false, attached := true,
    sbEof := false }

/-- `StreamBuffer.feed_data(chunk)` with the echo parser attached: the
resumed `readsome` feeds the chunk into the ParserBuffer and returns all
pending bytes; the parser hands them to the DataBuffer and suspends again
on the now-empty buffer. -/
def EchoPipe.feed (chunk : List Nat) (p : EchoPipe) : EchoPipe :=
  if chunk = [] then p
  else if p.attached then
    let pb1 := p.buf.feed_data chunk
    match pb1.readsomeScan with
    | some (bs, pb2) => { p with buf := pb2, items := p.items ++ [bs] }
    | none => { p with buf := pb1 }
  else { p with buf := p.buf.feed_data chunk }

/-- `StreamBuffer.feed_eof` with the echo parser: `EofStream` propagates
out of `readsome`, so the DataBuffer gets `feed_eof` and the parser is
detached. -/
def EchoPipe.feedEof (p : EchoPipe) : EchoPipe :=
  if p.attached then
    { p with outEof := true, attached := false, sbEof := true }
  else { p with sbEof := true }

/-! ### chunks parser (parsers.py lines 388–396)

`chunks_parser(size)` frames the stream into fixed-size blocks via
`ParserBuffer.read(size)` (parsers.py lines 292–302), which consumes
exactly `size` bytes when available and yields otherwise. -/

/-- One scan of `ParserBuffer.read(size)` over the current buffer: consume
exactly `size` bytes when buffered, else fall through to `(yield)`. -/
def PBuf.readScan (size : Nat) (pb : PBuf) : Option (List Nat × PBuf) :=
  if size ≤ pb.size then
    some ((pb.data.drop pb.offset).take size,
          { pb with offset := pb.offset + size, size := pb.size - size })
  else none

/-- The chunks-parser resumption loop between two suspensions: every
complete `size`-block now available is read and handed to the DataBuffer.
Any `fuel > pb.size` suffices for positive `size`. -/
def blockLoop (size : Nat) : Nat → PBuf → List (List Nat) × PBuf
  | 0, pb => ([], pb)
  | fuel + 1, pb =>
      match pb.readScan size with
      | some (bs, pb1) =>
          let r := blockLoop size fuel pb1
          (bs :: r.1, r.2)
      | none => ([], pb)

/-- The block extraction on the logical view. -/
def blocksL (size : Nat) : Nat → List Nat → List (List Nat) × List Nat
  | 0, pending => ([], pending)
  | fuel + 1, pending =>
      if size ≤ pending.length then
        let r := blocksL size fuel (pending.drop size)
        (pending.take size :: r.1, r.2)
      else ([], pending)

/-- All complete `size`-blocks of `pending`, with the residue. -/
def blocksOfL (size : Nat) (pending : List Nat) :
    List (List Nat) × List Nat :=
  blocksL size (pending.length + 1) pending

/-- StreamBuffer pipeline state for `chunks_parser` (it has no error
path: `read` never raises). -/
structure ChunksPipe where
  buf : PBuf
  items : List (List Nat)
  outEof : Bool
  attached : Bool
  sbEof : Bool
  deriving DecidableEq, Repr

/-- `set_parser(chunks_parser(size))` on a fresh StreamBuffer: priming runs
`read(size)` on the empty buffer until it suspends. -/
def ChunksPipe.init (size : Nat) : ChunksPipe :=
  let r := blockLoop size (PBuf.mk0.size + 1) PBuf.mk0
  { buf := r.2, items := r.1, outEof := false, attached := true,
    sbEof := false }

/-- `StreamBuffer.feed_data(chunk)` with `chunks_parser` attached. -/
def ChunksPipe.feed (size : Nat) (chunk : List Nat) (p : ChunksPipe) :
    ChunksPipe :=
  if chunk = [] then p
  else if p.attached then
    let pb1 := p.buf.feed_data chunk
    let r := blockLoop size (pb1.size + 1) pb1
    { p with buf := r.2, items := p.items ++ r.1 }
  else { p with buf := p.buf.feed_data chunk }

/-- `StreamBuffer.feed_eof` with `chunks_parser`: `EofStream` propagates
out of `read`, so the DataBuffer gets `feed_eof` and the parser is
detached. -/
def ChunksPipe.feedEof (p : ChunksPipe) : ChunksPipe :=
  if p.attached then
    { p with outEof := true, attached := false, sbEof := true }
  else { p with sbEof := true }

/-- Feed a list of chunks in order. -/
def ChunksPipe.feedAll (size : Nat) (chunks : List (List Nat))
    (p : ChunksPipe) : ChunksPipe :=
  chunks.foldl (fun q c => ChunksPipe.feed size c q) p

/-- Observable DataBuffer contents of the chunks pipeline. -/
def ChunksPipe.obs (p : ChunksPipe) : List (List Nat) × Bool :=
  (p.items, p.outEof)

/-- Simulation invariant for the chunks pipeline: the DataBuffer holds
exactly the complete `size`-blocks of the bytes fed so far, the parser is
still attached, and the buffer holds the unconsumed residue. -/
def ChunkInv (size : Nat) (S : List Nat) (p : ChunksPipe) : Prop :=
  p.items = (blocksOfL size S).1 ∧ p.attached = true ∧
  p.outEof = false ∧ p.sbEof = false ∧ p.buf.wf ∧
  p.buf.pending = (blocksOfL size S).2

/-! ## Helper lemmas: Future -/

theorem scheduleCallbacks_fst (f : Future) :
    (Future.scheduleCallbacks f).1 =
      { f with timeoutHandle := false, callbacks := [] } := by
  obtain ⟨st, res, exc, cbs, tb, th, bl, lp⟩ := f
  unfold Future.scheduleCallbacks
  by_cases h : cbs = [] <;> simp_all

theorem scheduleCallbacks_snd (f : Future) :
    (Future.scheduleCallbacks f).2 = f.callbacks := by
  obtain ⟨st, res, exc, cbs, tb, th, bl, lp⟩ := f
  unfold Future.scheduleCallbacks
  by_cases h : cbs = [] <;> simp_all

theorem cancel_not_pending {f : Future} (h : f.state ≠ .pending) :
    Future.cancel f = (f, false, []) := by
  simp [Future.cancel, h]

theorem cancel_pending {f : Future} (h : f.state = .pending) :
    Future.cancel f =
      ({ f with state := .cancelled, timeoutHandle := false,
                callbacks := [] },
       true, f.callbacks) := by
  unfold Future.cancel
  rw [if_neg (by simp [h])]
  rw [show (Future.scheduleCallbacks { f with state := .cancelled }) =
        ((Future.scheduleCallbacks { f with state := .cancelled }).1,
         (Future.scheduleCallbacks { f with state := .cancelled }).2) from rfl]
  rw [scheduleCallbacks_fst, scheduleCallbacks_snd]

theorem set_result_not_pending {f : Future} (v : Nat)
    (h : f.state ≠ .pending) :
    Future.set_result v f = .error .invalidStateError := by
  simp [Future.set_result, h]

theorem set_result_pending {f : Future} (v : Nat) (h : f.state = .pending) :
    Future.set_result v f =
      .ok ({ f with result? := some v, state := .finished,
                    timeoutHandle := false, callbacks := [] },
           f.callbacks) := by
  unfold Future.set_result
  rw [if_neg (by simp [h])]
  rw [show (Future.scheduleCallbacks
        { f with result? := some v, state := .finished }) =
        ((Future.scheduleCallbacks
           { f with result? := some v, state := .finished }).1,
         (Future.scheduleCallbacks
           { f with result? := some v, state := .finished }).2) from rfl]
  rw [scheduleCallbacks_fst, scheduleCallbacks_snd]

theorem set_exception_not_pending {f : Future} (e : Exc)
    (h : f.state ≠ .pending) :
    Future.set_exception e f = .error .invalidStateError := by
  simp [Future.set_exception, h]

theorem set_exception_pending {f : Future} (e : Exc)
    (h : f.state = .pending) :
    Future.set_exception e f =
      .ok ({ f with exception? := some e, tbLogger := true,
                    state := .finished, timeoutHandle := false,
                    callbacks := [] },
           f.callbacks, true) := by
  unfold Future.set_exception
  rw [if_neg (by simp [h])]
  rw [show (Future.scheduleCallbacks
        { f with exception? := some e, tbLogger := true,
                 state := .finished }) =
        ((Future.scheduleCallbacks
           { f with exception? := some e, tbLogger := true,
                    state := .finished }).1,
         (Future.scheduleCallbacks
           { f with exception? := some e, tbLogger := true,
                    state := .finished }).2) from rfl]
  rw [scheduleCallbacks_fst, scheduleCallbacks_snd]

/-- The state after any single `Future` operation: a non-PENDING state never
changes, and from PENDING the only moves are to CANCELLED (by `cancel`) or
FINISHED (by `set_result` / `set_exception`). -/
theorem fop_apply_state (f : Future) (op : FOp) :
    (f.state ≠ .pending → (op.apply f).state = f.state) ∧
    (f.state = .pending →
      (op.apply f).state = .pending ∨ (op.apply f).state = .cancelled ∨
        (op.apply f).state = .finished) := by
  constructor
  · intro h
    cases op with
    | cancel =>
        simp only [FOp.apply]
        rw [cancel_not_pending h]
    | setResult v => simp [FOp.apply, set_result_not_pending v h]
    | setException e => simp [FOp.apply, set_exception_not_pending e h]
    | addDoneCallback fn => simp [FOp.apply, Future.add_done_callback, h]
    | removeDoneCallback fn => simp [FOp.apply, Future.remove_done_callback]
    | resultCall t =>
        simp only [FOp.apply, Future.resultCall]
        split_ifs <;> try rfl
        split <;> rfl
    | exceptionCall t =>
        simp only [FOp.apply, Future.exceptionCall]
        split_ifs <;> rfl
  · intro h
    cases op with
    | cancel =>
        right; left
        simp only [FOp.apply]
        rw [cancel_pending h]
    | setResult v =>
        right; right
        simp [FOp.apply, set_result_pending v h]
    | setException e =>
        right; right
        simp [FOp.apply, set_exception_pending e h]
    | addDoneCallback fn =>
        left
        simp [FOp.apply, Future.add_done_callback, h]
    | removeDoneCallback fn =>
        left
        simp [FOp.apply, Future.remove_done_callback, h]
    | resultCall t =>
        left
        simp only [FOp.apply, Future.resultCall]
        split_ifs <;> simp_all
    | exceptionCall t =>
        left
        simp only [FOp.apply, Future.exceptionCall]
        split_ifs <;> simp_all

/-! ## Claim C3 -/

/-- C3: A Future's state only ever moves PENDING→CANCELLED or
PENDING→FINISHED under the class's operations and never changes once
non-PENDING; `cancel()` on a PENDING future moves it to CANCELLED and
returns true, and on a non-PENDING future returns false and changes
nothing; `set_result` and `set_exception` on a non-PENDING future raise
InvalidStateError and leave the future (state, result and exception
included) unchanged. -/
theorem c3_future_state_transitions :
    (∀ (f : Future) (op : FOp),
      (f.state ≠ .pending → (op.apply f).state = f.state) ∧
      (f.state = .pending → (op.apply f).state = .pending ∨
        (op.apply f).state = .cancelled ∨ (op.apply f).state = .finished)) ∧
    (∀ f : Future, f.state = .pending →
      (Future.cancel f).1.state = .cancelled ∧
        (Future.cancel f).2.1 = true) ∧
    (∀ f : Future, f.state ≠ .pending →
      Future.cancel f = (f, false, [])) ∧
    (∀ (f : Future) (v : Nat), f.state ≠ .pending →
      Future.set_result v f = .error .invalidStateError ∧
        (FOp.setResult v).apply f = f) ∧
    (∀ (f : Future) (e : Exc), f.state ≠ .pending →
      Future.set_exception e f = .error .invalidStateError ∧
        (FOp.setException e).apply f = f) := by
  refine ⟨fop_apply_state, ?_, ?_, ?_, ?_⟩
  · intro f h
    rw [cancel_pending h]
    exact ⟨rfl, rfl⟩
  · intro f h
    exact cancel_not_pending h
  · intro f v h
    refine ⟨set_result_not_pending v h, ?_⟩
    simp [FOp.apply, set_result_not_pending v h]
  · intro f e h
    refine ⟨set_exception_not_pending e h, ?_⟩
    simp [FOp.apply, set_exception_not_pending e h]

/-- Witness for C3 at a concrete pending future and a concrete finished
future. -/
theorem c3_future_state_transitions_witness :
    ((Future.cancel (Future.mk0 0)).1.state = .cancelled ∧
      (Future.cancel (Future.mk0 0)).2.1 = true) ∧
    Future.set_result 5
        ((FOp.setResult 3).apply (Future.mk0 0)) = .error .invalidStateError ∧
    ((FOp.setResult 3).apply (Future.mk0 0)).state = FState.finished :=
  ⟨c3_future_state_transitions.2.1 (Future.mk0 0) rfl,
   (c3_future_state_transitions.2.2.2.1
      ((FOp.setResult 3).apply (Future.mk0 0)) 5 (by decide)).1,
   by decide⟩

/-! ## Claim C4 -/

/-- C4: `set_result`, `set_exception` and `cancel` never invoke a
done-callback inline: each registered callback is handed exactly once (and
in order) to the loop's `call_soon` and the callback list is emptied;
`add_done_callback` on a done future schedules the callback via `call_soon`
instead of calling it, and on a pending future appends it without
scheduling. -/
theorem c4_callbacks_scheduled_not_inline :
    (∀ f : Future, f.state = .pending →
      (Future.cancel f).2.2 = f.callbacks ∧
        (Future.cancel f).1.callbacks = []) ∧
    (∀ (f : Future) (v : Nat), f.state = .pending →
      ∃ f', Future.set_result v f = .ok (f', f.callbacks) ∧
        f'.callbacks = []) ∧
    (∀ (f : Future) (e : Exc), f.state = .pending →
      ∃ f', Future.set_exception e f = .ok (f', f.callbacks, true) ∧
        f'.callbacks = []) ∧
    (∀ (f : Future) (fn : Nat), f.state ≠ .pending →
      Future.add_done_callback fn f = (f, [fn])) ∧
    (∀ (f : Future) (fn : Nat), f.state = .pending →
      Future.add_done_callback fn f =
        ({ f with callbacks := f.callbacks ++ [fn] }, [])) := by
  refine ⟨?_, ?_, ?_, ?_, ?_⟩
  · intro f h
    rw [cancel_pending h]
    exact ⟨rfl, rfl⟩
  · intro f v h
    exact ⟨_, set_result_pending v h, rfl⟩
  · intro f e h
    exact ⟨_, set_exception_pending e h, rfl⟩
  · intro f fn h
    simp [Future.add_done_callback, h]
  · intro f fn h
    simp [Future.add_done_callback, h]

/-- Witness for C4 on a concrete pending future carrying two callbacks and
a concrete cancelled future. -/
theorem c4_callbacks_scheduled_not_inline_witness :
    ((Future.cancel
        { Future.mk0 0 with callbacks := [4, 7] }).2.2 = [4, 7] ∧
      (Future.cancel
        { Future.mk0 0 with callbacks := [4, 7] }).1.callbacks = []) ∧
    Future.add_done_callback 9 (Future.cancel (Future.mk0 0)).1 =
      ((Future.cancel (Future.mk0 0)).1, [9]) :=
  ⟨c4_callbacks_scheduled_not_inline.1
      { Future.mk0 0 with callbacks := [4, 7] } rfl,
   c4_callbacks_scheduled_not_inline.2.2.2.1
      (Future.cancel (Future.mk0 0)).1 9 (by decide)⟩

/-! ## Claim C8 -/

/-- C8: `result()` raises CancelledError on a CANCELLED future, raises
InvalidStateError on a PENDING future, re-raises the stored exception on a
FINISHED future with one set, and otherwise returns the stored value; a
successful `result()` (or `exception()`) call clears the
"exception never retrieved" traceback logger. -/
theorem c8_result_retrieval :
    (∀ f : Future, f.state = .cancelled →
      Future.resultCall 0 f = (f, .error .cancelledError)) ∧
    (∀ f : Future, f.state = .pending →
      Future.resultCall 0 f = (f, .error .invalidStateError)) ∧
    (∀ (f : Future) (e : Exc), f.state = .finished → f.exception? = some e →
      Future.resultCall 0 f = ({ f with tbLogger := false }, .error e)) ∧
    (∀ f : Future, f.state = .finished → f.exception? = none →
      Future.resultCall 0 f = ({ f with tbLogger := false }, .ok f.result?)) ∧
    (∀ f : Future, f.state = .finished →
      Future.exceptionCall 0 f =
        ({ f with tbLogger := false }, .ok f.exception?)) := by
  refine ⟨?_, ?_, ?_, ?_, ?_⟩
  · intro f h
    simp [Future.resultCall, h]
  · intro f h
    simp [Future.resultCall, h]
  · intro f e h he
    simp [Future.resultCall, h, he]
  · intro f h he
    simp [Future.resultCall, h, he]
  · intro f h
    simp [Future.exceptionCall, h]

/-- Witness for C8 at concrete futures in each of the four states. -/
theorem c8_result_retrieval_witness :
    Future.resultCall 0 (Future.cancel (Future.mk0 0)).1 =
      ((Future.cancel (Future.mk0 0)).1, .error .cancelledError) ∧
    Future.resultCall 0 (Future.mk0 0) =
      (Future.mk0 0, .error .invalidStateError) ∧
    Future.resultCall 0
        { Future.mk0 0 with
            state := .finished, exception? := some (.userExc 3),
            tbLogger := true } =
      ({ Future.mk0 0 with
          state := .finished, exception? := some (.userExc 3),
          tbLogger := false },
        .error (.userExc 3)) ∧
    Future.resultCall 0
        { Future.mk0 0 with state := .finished, result? := some 11 } =
      ({ Future.mk0 0 with
          state := .finished, result? := some 11, tbLogger := false },
        .ok (some 11)) :=
  ⟨c8_result_retrieval.1 (Future.cancel (Future.mk0 0)).1 (by decide),
   c8_result_retrieval.2.1 (Future.mk0 0) rfl,
   c8_result_retrieval.2.2.1 _ (.userExc 3) rfl rfl,
   c8_result_retrieval.2.2.2.1 _ rfl rfl⟩

/-! ## Claim C5 -/

/-- C5 counterexample: the claim says a yielded Future belonging to a
different loop causes `_step(nil, RuntimeError(…))` to be scheduled.  In
`Task._step` there is no loop-ownership check: a blocking Future owned by
loop 1, yielded in a task on loop 0, is attached as `fut_waiter` (with
`_wakeup` added as its done-callback) and no RuntimeError step is
scheduled. -/
theorem c5_step_dispatch_counterexample :
    (TaskS.stepDispatch
        { fut := Future.mk0 0, futWaiter := none, mustCancel := false }
        (StepYield.futY { Future.mk0 1 with blocking := true })).2.2 =
      StepEff.attached [] ∧
    (TaskS.stepDispatch
        { fut := Future.mk0 0, futWaiter := none, mustCancel := false }
        (StepYield.futY { Future.mk0 1 with blocking := true })).2.2 ≠
      StepEff.callSoonStepError Exc.runtimeError ∧
    (TaskS.stepDispatch
        { fut := Future.mk0 0, futWaiter := none, mustCancel := false }
        (StepYield.futY { Future.mk0 1 with blocking := true })).1.futWaiter =
      some { Future.mk0 1 with blocking := false, callbacks := [wakeupCb] } := by
  decide

/-- C5 (amended): when a Task's coroutine yields `y`: if `y` is a Future
with the awaitable blocking flag set — regardless of which loop owns it —
the flag is cleared, `fut_waiter` is set to `y`, and `_wakeup` is attached
via `add_done_callback` (appended to `y`'s callback list when `y` is
pending); if `y` is nil, `_step` is rescheduled via `call_soon`; any other
yielded value — a generator, a Future whose blocking flag is not set, or
anything else — causes `_step(nil, RuntimeError(…))` to be scheduled. -/
theorem c5_step_dispatch (t : TaskS) (g : Future) :
    (g.blocking = true →
      TaskS.stepDispatch t (.futY g) =
        ({ t with futWaiter := some (Future.add_done_callback wakeupCb { g with blocking := false }).1 },
         some (Future.add_done_callback wakeupCb { g with blocking := false }).1,
         .attached (Future.add_done_callback wakeupCb { g with blocking := false }).2)) ∧
    (g.blocking = true → g.state = .pending →
      (TaskS.stepDispatch t (.futY g)).2.1 =
        some { g with blocking := false, callbacks := g.callbacks ++ [wakeupCb] }) ∧
    (g.blocking = false →
      TaskS.stepDispatch t (.futY g) =
        (t, some g, .callSoonStepError .runtimeError)) ∧
    TaskS.stepDispatch t .noneY = (t, none, .callSoonStep) ∧
    TaskS.stepDispatch t .genY = (t, none, .callSoonStepError .runtimeError) ∧
    TaskS.stepDispatch t .otherY =
      (t, none, .callSoonStepError .runtimeError) := by
  refine ⟨?_, ?_, ?_, rfl, rfl, rfl⟩
  · intro hb
    simp [TaskS.stepDispatch, hb]
  · intro hb hp
    simp [TaskS.stepDispatch, hb, Future.add_done_callback, hp]
  · intro hb
    simp [TaskS.stepDispatch, hb]

/-- Witness for C5 at a concrete task and a concrete blocking future owned
by a different loop. -/
theorem c5_step_dispatch_witness :
    (TaskS.stepDispatch
        { fut := Future.mk0 0, futWaiter := none, mustCancel := false }
        (.futY { Future.mk0 1 with blocking := true })).2.1 =
      some { Future.mk0 1 with blocking := false, callbacks := [wakeupCb] } ∧
    TaskS.stepDispatch
        { fut := Future.mk0 0, futWaiter := none, mustCancel := false }
        (.futY (Future.mk0 1)) =
      ({ fut := Future.mk0 0, futWaiter := none, mustCancel := false },
       some (Future.mk0 1), .callSoonStepError .runtimeError) :=
  ⟨(c5_step_dispatch
      { fut := Future.mk0 0, futWaiter := none, mustCancel := false }
      { Future.mk0 1 with blocking := true }).2.1 rfl rfl,
   (c5_step_dispatch
      { fut := Future.mk0 0, futWaiter := none, mustCancel := false }
      (Future.mk0 1)).2.2.1 rfl⟩

/-! ## Claim C1 -/

/-- C1 counterexample: the claim says that when the timeout elapses before
the child completes, `wait_for` raises TimeoutError *and cancels the
child*.  Concretely, for a child that never completes and timeout 5,
`wait_for` raises TimeoutError but the child is left PENDING — neither
`wait_for` nor `_wait` ever calls `fut.cancel()` (the code's own test
asserts `assertFalse(fut.done())` after the timeout). -/
theorem c1_wait_for_counterexample :
    wait_for_run 0 none 0 5 =
      { outcome := .error .timeoutError, childState := .pending } ∧
    (wait_for_run 0 none 0 5).childState ≠ FState.cancelled := by
  decide

/-- C1 (amended): for every future `fut` and finite timeout `t`: if `fut`
has not completed when the timeout elapses, `wait_for(fut, t)` raises
TimeoutError and leaves `fut` pending (the child is *not* cancelled); if
`fut` completes before the timeout, `wait_for` returns `fut`'s result. -/
theorem c1_wait_for (loopId tc childVal timeout : Nat) :
    (tc < timeout →
      wait_for_run loopId (some tc) childVal timeout =
        { outcome := .ok (some childVal), childState := .finished }) ∧
    (timeout ≤ tc →
      wait_for_run loopId (some tc) childVal timeout =
        { outcome := .error .timeoutError, childState := .pending }) ∧
    wait_for_run loopId none childVal timeout =
      { outcome := .error .timeoutError, childState := .pending } := by
  refine ⟨?_, ?_, ?_⟩
  · intro h
    simp [wait_for_run, waitEvents, h, WaitSt.runEvents, WaitSt.procEvent,
      Future.set_result, Future.scheduleCallbacks, Future.cancel,
      Future.mk0, Future.resultCall]
  · intro h
    simp [wait_for_run, waitEvents, Nat.not_lt.mpr h, WaitSt.runEvents,
      WaitSt.procEvent, Future.cancel, Future.scheduleCallbacks,
      Future.mk0]
  · simp [wait_for_run, waitEvents, WaitSt.runEvents, WaitSt.procEvent,
      Future.cancel, Future.scheduleCallbacks, Future.mk0]

/-- Witness for C1 at concrete completion times on either side of the
timeout. -/
theorem c1_wait_for_witness :
    wait_for_run 0 (some 2) 7 5 =
      { outcome := .ok (some 7), childState := .finished } ∧
    wait_for_run 0 (some 9) 7 5 =
      { outcome := .error .timeoutError, childState := .pending } :=
  ⟨(c1_wait_for 0 2 7 5).1 (by decide),
   (c1_wait_for 0 9 7 5).2.1 (by decide)⟩

/-! ## Claim C6 -/

/-- The cumulative effect of `feed_data` over a chunk list on a fresh-style
reader: the buffered chunks flatten to the concatenation of the fed bytes,
`byte_count` tracks it, and eof / exception / limit are untouched. -/
theorem feed_data_spec (c : List Nat) (r : SReader) :
    (SReader.feed_data c r).buffer.flatten = r.buffer.flatten ++ c ∧
    (SReader.feed_data c r).byteCount = r.byteCount + c.length ∧
    (SReader.feed_data c r).eof = r.eof ∧
    (SReader.feed_data c r).exception? = r.exception? ∧
    (SReader.feed_data c r).limit = r.limit := by
  by_cases hc : c = []
  · subst hc
    simp [SReader.feed_data]
  · simp [SReader.feed_data, hc]

theorem feedAll_spec (chunks : List (List Nat)) (r : SReader) :
    (SReader.feedAll chunks r).buffer.flatten =
        r.buffer.flatten ++ chunks.flatten ∧
    (SReader.feedAll chunks r).byteCount =
        r.byteCount + chunks.flatten.length ∧
    (SReader.feedAll chunks r).eof = r.eof ∧
    (SReader.feedAll chunks r).exception? = r.exception? ∧
    (SReader.feedAll chunks r).limit = r.limit := by
  induction chunks generalizing r with
  | nil => simp [SReader.feedAll]
  | cons c cs ih =>
      have step : SReader.feedAll (c :: cs) r =
          SReader.feedAll cs (SReader.feed_data c r) := rfl
      obtain ⟨g1, g2, g3, g4, g5⟩ := feed_data_spec c r
      obtain ⟨h1, h2, h3, h4, h5⟩ := ih (SReader.feed_data c r)
      refine ⟨?_, ?_, ?_, ?_, ?_⟩
      · rw [step, h1, g1]
        simp [List.append_assoc]
      · rw [step, h2, g2]
        simp only [List.flatten_cons, List.length_append]
        omega
      · rw [step, h3, g3]
      · rw [step, h4, g4]
      · rw [step, h5, g5]

/-- C6 counterexample: the claim says `readexactly(n)` raises
IncompleteRead when EOF arrives before `n` bytes.  Concretely, after
feeding `[1,2]` and EOF, `readexactly(4)` raises nothing: it returns the
two partial bytes (the code's own test asserts this). -/
theorem c6_readexactly_counterexample :
    SReader.readexactly 4
        (SReader.feed_eof (SReader.feed_data [1, 2] (SReader.mk0 (2 ^ 16)))) =
      .ok ([1, 2],
        { limit := 2 ^ 16, buffer := [], byteCount := 0, eof := true,
          exception? := none }) := by
  decide

/-- C6 (amended): for every `n > 0`, if EOF is fed to a StreamReader before
`n` bytes have arrived, `readexactly(n)` returns the bytes that did arrive
(the partial data) without raising. -/
theorem c6_readexactly_eof (chunks : List (List Nat)) (limit : Nat)
    (n : Int) (h : (chunks.flatten.length : Int) < n) :
    SReader.readexactly n
        (SReader.feed_eof (SReader.feedAll chunks (SReader.mk0 limit))) =
      .ok (chunks.flatten,
        { limit := limit, buffer := [], byteCount := 0, eof := true,
          exception? := none }) := by
  have hn0 : ¬n ≤ 0 := by omega
  have hne : ¬n = 0 := by omega
  have key : ∀ R : SReader, R.buffer.flatten = chunks.flatten →
      R.byteCount = chunks.flatten.length → R.eof = false →
      R.exception? = none → R.limit = limit →
      SReader.readexactly n (SReader.feed_eof R) =
        .ok (chunks.flatten,
          { limit := limit, buffer := [], byteCount := 0, eof := true,
            exception? := none }) := by
    intro R hb hc he hx hl
    obtain ⟨Rl, Rb, Rc, Re, Rx⟩ := R
    simp only at hb hc he hx hl
    subst hc he hx hl
    simp only [SReader.feed_eof, SReader.readexactly, SReader.read]
    rw [if_neg hn0, if_neg hne,
      if_pos (Or.inr (le_of_lt h : ((chunks.flatten.length : Nat) : Int) ≤ n))]
    rw [hb]
  obtain ⟨h1, h2, h3, h4, h5⟩ := feedAll_spec chunks (SReader.mk0 limit)
  exact key _ (by simpa [SReader.mk0] using h1) (by simpa [SReader.mk0] using h2)
    (by simpa [SReader.mk0] using h3) (by simpa [SReader.mk0] using h4)
    (by simpa [SReader.mk0] using h5)

/-- Witness for C6 at a concrete two-chunk feed. -/
theorem c6_readexactly_eof_witness :
    SReader.readexactly 5
        (SReader.feed_eof
          (SReader.feedAll [[1], [2, 3]] (SReader.mk0 64))) =
      .ok ([1, 2, 3],
        { limit := 64, buffer := [], byteCount := 0, eof := true,
          exception? := none }) :=
  c6_readexactly_eof [[1], [2, 3]] 64 5 (by decide)

/-! ## Claim C7 -/

/-- C7: `close()` and `_force_close()` on a not-yet-closing transport make
`conn_lost` nonzero; afterwards, every `write(data)` with nonempty data
drops the data — nothing is passed to `sock.send` and nothing is appended
to the write buffer — increments `conn_lost`, emits the warning exactly
when `conn_lost` has reached the configured threshold, and leaves
`conn_lost` nonzero (so all later writes drop too). -/
theorem c7_write_after_close (t : STrans) (threshold : Nat) (so : SendRes)
    (data : List Nat) :
    (¬t.closing →
      0 < (STrans.close t).1.connLost ∧
        0 < (STrans.forceClose t).1.connLost) ∧
    (data ≠ [] → 0 < t.connLost →
      (STrans.write threshold so data t).2.sentData = none ∧
      (STrans.write threshold so data t).1.buffer = t.buffer ∧
      (STrans.write threshold so data t).1.connLost = t.connLost + 1 ∧
      ((STrans.write threshold so data t).2.warned = true ↔
        threshold ≤ t.connLost) ∧
      0 < (STrans.write threshold so data t).1.connLost) := by
  constructor
  · intro hcl
    constructor
    · simp [STrans.close, hcl]
    · simp [STrans.forceClose, hcl]
  · intro hd hc
    have hc' : t.connLost ≠ 0 := by omega
    refine ⟨?_, ?_, ?_, ?_, ?_⟩ <;>
      simp [STrans.write, TransEff.none0, hd, hc']

/-- Witness for C7: a freshly closed transport drops a concrete write. -/
theorem c7_write_after_close_witness :
    0 < (STrans.close
      { buffer := [], connLost := 0, closing := false,
        writing := true }).1.connLost ∧
    (STrans.write 10 (SendRes.sent 2) [1, 2]
      { buffer := [], connLost := 1, closing := true,
        writing := true }).2.sentData = none ∧
    (STrans.write 10 (SendRes.sent 2) [1, 2]
      { buffer := [], connLost := 1, closing := true,
        writing := true }).1.connLost = 2 :=
  ⟨((c7_write_after_close
      { buffer := [], connLost := 0, closing := false, writing := true }
      10 (SendRes.sent 2) [1, 2]).1 (by decide)).1,
   ((c7_write_after_close
      { buffer := [], connLost := 1, closing := true, writing := true }
      10 (SendRes.sent 2) [1, 2]).2 (by decide) (by decide)).1,
   ((c7_write_after_close
      { buffer := [], connLost := 1, closing := true, writing := true }
      10 (SendRes.sent 2) [1, 2]).2 (by decide) (by decide)).2.2.1⟩

/-! ## Claim C10 -/

/-- C10: writing an empty byte string is a complete no-op at the transport
interface: `write(b'')` on the socket and TLS transports and `sendto(b'')`
on the datagram transport return immediately — no send is attempted, and
the write buffer, the `conn_lost` counter, the selector registrations and
every other piece of transport state are unchanged. -/
theorem c10_empty_write_noop (t : STrans) (threshold : Nat) (so : SendRes)
    (dso : DSendRes) (hasAddress : Bool) :
    STrans.write threshold so [] t = (t, TransEff.none0) ∧
    STrans.sslWrite threshold [] t = (t, TransEff.none0) ∧
    STrans.sendto threshold dso hasAddress [] t = (t, TransEff.none0) := by
  refine ⟨?_, ?_, ?_⟩
  · simp [STrans.write]
  · simp [STrans.sslWrite]
  · simp [STrans.sendto]

/-! ## Claim C9 -/

/-- C9: `StreamBuffer` keeps the invariant that a parser is attached iff
its DataBuffer is attached: the invariant holds initially, and is preserved
by `feed_data`, `feed_eof`, `set_parser`, `unset_parser` and
`set_exception`, whatever the parser generator does at each `send` /
`throw`. -/
theorem c9_parser_buffer_invariant :
    (SBCtl.mk0.parser = SBCtl.mk0.parserBuffer) ∧
    (∀ (s : SBCtl) (d : Bool) (o : PSendOut), s.parser = s.parserBuffer →
      (SBCtl.feed_data d o s).parser = (SBCtl.feed_data d o s).parserBuffer) ∧
    (∀ (s : SBCtl) (o : PThrowOut), s.parser = s.parserBuffer →
      (SBCtl.feed_eof o s).parser = (SBCtl.feed_eof o s).parserBuffer) ∧
    (∀ (s : SBCtl) (o1 : PThrowOut) (p : PSendOut) (o2 : PThrowOut),
      s.parser = s.parserBuffer →
      (SBCtl.set_parser o1 p o2 s).parser =
        (SBCtl.set_parser o1 p o2 s).parserBuffer) ∧
    (∀ (s : SBCtl) (o : PThrowOut), s.parser = s.parserBuffer →
      (SBCtl.unset_parser o s).parser =
        (SBCtl.unset_parser o s).parserBuffer) ∧
    (∀ s : SBCtl, s.parser = s.parserBuffer →
      (SBCtl.set_exception s).parser =
        (SBCtl.set_exception s).parserBuffer) := by
  refine ⟨rfl, ?_, ?_, ?_, ?_, ?_⟩
  · intro s d o h
    obtain ⟨p, pb, e, x⟩ := s
    cases d <;> cases o <;> simp_all [SBCtl.feed_data] <;>
      cases p <;> simp_all
  · intro s o h
    obtain ⟨p, pb, e, x⟩ := s
    cases p <;> simp_all [SBCtl.feed_eof]
  · intro s o1 p' o2 h
    obtain ⟨p, pb, e, x⟩ := s
    cases p <;> cases p' <;> cases e <;> cases x <;>
      simp_all [SBCtl.set_parser, SBCtl.unset_parser]
  · intro s o h
    simp [SBCtl.unset_parser]
  · intro s h
    obtain ⟨p, pb, e, x⟩ := s
    cases pb <;> simp_all [SBCtl.set_exception]

/-- Witness for C9 on concrete attachment states. -/
theorem c9_parser_buffer_invariant_witness :
    (SBCtl.feed_data true PSendOut.raised
      { parser := true, parserBuffer := true, eof := false,
        excSet := false }).parser =
    (SBCtl.feed_data true PSendOut.raised
      { parser := true, parserBuffer := true, eof := false,
        excSet := false }).parserBuffer ∧
    (SBCtl.set_parser PThrowOut.eofStream PSendOut.suspended
      PThrowOut.eofStream SBCtl.mk0).parser =
    (SBCtl.set_parser PThrowOut.eofStream PSendOut.suspended
      PThrowOut.eofStream SBCtl.mk0).parserBuffer :=
  ⟨c9_parser_buffer_invariant.2.1
      { parser := true, parserBuffer := true, eof := false, excSet := false }
      true PSendOut.raised rfl,
   c9_parser_buffer_invariant.2.2.2.1 SBCtl.mk0
      PThrowOut.eofStream PSendOut.suspended PThrowOut.eofStream rfl⟩

/-! ## Helper lemmas: findFrom characterization -/

theorem findFrom_some (l stop : List Nat) :
    ∀ s p, findFrom l stop s = some p →
      s ≤ p ∧ matchAt l stop p ∧
        ∀ q, s ≤ q → q < p → ¬ matchAt l stop q := by
  have main : ∀ n s p, l.length + 1 - s ≤ n → findFrom l stop s = some p →
      s ≤ p ∧ matchAt l stop p ∧
        ∀ q, s ≤ q → q < p → ¬ matchAt l stop q := by
    intro n
    induction n with
    | zero =>
        intro s p hn h
        rw [findFrom] at h
        rw [dif_neg (by omega)] at h
        exact absurd h (by simp)
    | succ n ih =>
        intro s p hn h
        rw [findFrom] at h
        by_cases hle : s + stop.length ≤ l.length
        · rw [dif_pos hle] at h
          by_cases heq : (l.drop s).take stop.length = stop
          · rw [if_pos heq] at h
            obtain rfl : s = p := by simpa using h
            exact ⟨le_refl s, ⟨hle, heq⟩, fun q h1 h2 _ => by omega⟩
          · rw [if_neg heq] at h
            obtain ⟨ih1, ih2, ih3⟩ := ih (s + 1) p (by omega) h
            refine ⟨by omega, ih2, ?_⟩
            intro q hq1 hq2 hq
            rcases Nat.eq_or_lt_of_le hq1 with rfl | hlt
            · exact heq hq.2
            · exact ih3 q hlt hq2 hq
        · rw [dif_neg hle] at h
          exact absurd h (by simp)
  intro s p h
  exact main (l.length + 1 - s) s p le_rfl h

theorem findFrom_none (l stop : List Nat) :
    ∀ s, findFrom l stop s = none → ∀ q, s ≤ q → ¬ matchAt l stop q := by
  have main : ∀ n s, l.length + 1 - s ≤ n → findFrom l stop s = none →
      ∀ q, s ≤ q → ¬ matchAt l stop q := by
    intro n
    induction n with
    | zero =>
        intro s hn _ q hq hm
        obtain ⟨hm1, _⟩ := hm
        omega
    | succ n ih =>
        intro s hn h q hq hm
        rw [findFrom] at h
        by_cases hle : s + stop.length ≤ l.length
        · rw [dif_pos hle] at h
          by_cases heq : (l.drop s).take stop.length = stop
          · rw [if_pos heq] at h
            exact absurd h (by simp)
          · rw [if_neg heq] at h
            rcases Nat.eq_or_lt_of_le hq with rfl | hlt
            · exact heq hm.2
            · exact ih (s + 1) (by omega) h q hlt hm
        · obtain ⟨hm1, _⟩ := hm
          omega
  intro s h q hq hm
  exact main (l.length + 1 - s) s le_rfl h q hq hm

theorem findFrom_comp (l stop : List Nat) :
    ∀ s p, matchAt l stop p → s ≤ p →
      ∃ r, findFrom l stop s = some r := by
  have main : ∀ n s p, l.length + 1 - s ≤ n → matchAt l stop p → s ≤ p →
      ∃ r, findFrom l stop s = some r := by
    intro n
    induction n with
    | zero =>
        intro s p hn hm hs
        obtain ⟨hm1, _⟩ := hm
        omega
    | succ n ih =>
        intro s p hn hm hs
        have hle : s + stop.length ≤ l.length := by
          obtain ⟨hm1, _⟩ := hm
          omega
        rw [findFrom, dif_pos hle]
        by_cases heq : (l.drop s).take stop.length = stop
        · rw [if_pos heq]
          exact ⟨s, rfl⟩
        · rw [if_neg heq]
          have hne : s ≠ p := by
            rintro rfl
            exact heq hm.2
          exact ih (s + 1) p (by omega) hm (by omega)
  intro s p hm hs
  exact main (l.length + 1 - s) s p le_rfl hm hs

theorem findFrom_eq_some {l stop : List Nat} {s p : Nat}
    (h1 : s ≤ p) (h2 : matchAt l stop p)
    (h3 : ∀ q, s ≤ q → q < p → ¬ matchAt l stop q) :
    findFrom l stop s = some p := by
  obtain ⟨r, hr⟩ := findFrom_comp l stop s p h2 h1
  obtain ⟨hr1, hr2, hr3⟩ := findFrom_some l stop s r hr
  have k1 : ¬ r < p := fun hlt => h3 r hr1 hlt hr2
  have k2 : ¬ p < r := fun hlt => hr3 p h1 hlt h2
  obtain rfl : r = p := by omega
  exact hr

theorem matchAt_append {l stop : List Nat} (v : List Nat) {i : Nat}
    (h : matchAt l stop i) : matchAt (l ++ v) stop i := by
  obtain ⟨h1, h2⟩ := h
  refine ⟨by simp; omega, ?_⟩
  rw [List.drop_append_of_le_length (by omega),
    List.take_append_of_le_length (by simp; omega)]
  exact h2

theorem matchAt_append_inv {l stop v : List Nat} {i : Nat}
    (h : matchAt (l ++ v) stop i) (hle : i + stop.length ≤ l.length) :
    matchAt l stop i := by
  obtain ⟨_, h2⟩ := h
  refine ⟨hle, ?_⟩
  rw [List.drop_append_of_le_length (by omega),
    List.take_append_of_le_length (by simp; omega)] at h2
  exact h2

theorem matchAt_drop {l stop : List Nat} {off i : Nat}
    (hoff : off ≤ l.length) :
    matchAt (l.drop off) stop i ↔ matchAt l stop (off + i) := by
  unfold matchAt
  rw [List.drop_drop]
  constructor
  · rintro ⟨h1, h2⟩
    exact ⟨by simp at h1; omega, h2⟩
  · rintro ⟨h1, h2⟩
    exact ⟨by simp; omega, h2⟩

theorem findFrom_append {l stop : List Nat} {p : Nat} (v : List Nat)
    (h : findFrom l stop 0 = some p) : findFrom (l ++ v) stop 0 = some p := by
  obtain ⟨_, hm, hmin⟩ := findFrom_some l stop 0 p h
  refine findFrom_eq_some (Nat.zero_le p) (matchAt_append v hm) ?_
  intro q _ hlt hq
  have hql : matchAt l stop q :=
    matchAt_append_inv hq (by obtain ⟨h1, _⟩ := hm; omega)
  exact hmin q (Nat.zero_le q) hlt hql

theorem findFrom_append_none {l stop v : List Nat} {p : Nat}
    (hn : findFrom l stop 0 = none)
    (h : findFrom (l ++ v) stop 0 = some p) :
    l.length < p + stop.length := by
  obtain ⟨_, hm, _⟩ := findFrom_some (l ++ v) stop 0 p h
  by_contra hc
  exact findFrom_none l stop 0 hn p (Nat.zero_le p)
    (matchAt_append_inv hm (by omega))

theorem findFrom_shift {l stop : List Nat} {off : Nat}
    (hoff : off ≤ l.length) :
    findFrom l stop off =
      (findFrom (l.drop off) stop 0).map (fun q => off + q) := by
  cases hfd : findFrom (l.drop off) stop 0 with
  | some q =>
      obtain ⟨_, hm, hmin⟩ := findFrom_some (l.drop off) stop 0 q hfd
      simp only [Option.map_some']
      refine findFrom_eq_some (by omega) ((matchAt_drop hoff).mp hm) ?_
      intro r hr hlt hrm
      have : matchAt (l.drop off) stop (r - off) := by
        rw [matchAt_drop hoff, show off + (r - off) = r from by omega]
        exact hrm
      exact hmin (r - off) (Nat.zero_le _) (by omega) this
  | none =>
      simp only [Option.map_none']
      cases hfd2 : findFrom l stop off with
      | none => rfl
      | some r =>
          obtain ⟨hr1, hr2, _⟩ := findFrom_some l stop off r hfd2
          exact absurd ((matchAt_drop hoff).mpr
              (by rw [show off + (r - off) = r from by omega]; exact hr2))
            (findFrom_none (l.drop off) stop 0 hfd (r - off) (Nat.zero_le _))

/-! ## Helper lemmas: PBuf simulation -/

theorem PBuf.mk0_wf : PBuf.mk0.wf := by
  constructor <;> rfl

theorem PBuf.mk0_pending : PBuf.mk0.pending = [] := rfl

theorem PBuf.shrink_pending (pb : PBuf) : pb.shrink.pending = pb.pending := by
  unfold PBuf.shrink PBuf.pending
  split <;> simp

theorem PBuf.shrink_wf {pb : PBuf} (h : pb.wf) : pb.shrink.wf := by
  obtain ⟨h1, h2⟩ := h
  unfold PBuf.shrink PBuf.wf
  split <;> simp_all

theorem feed_data_pending {pb : PBuf} (h : pb.wf) (c : List Nat) :
    (pb.feed_data c).wf ∧ (pb.feed_data c).pending = pb.pending ++ c := by
  obtain ⟨h1, h2⟩ := h
  by_cases hc : c = []
  · subst hc
    refine ⟨?_, by simp [PBuf.feed_data]⟩
    simp only [PBuf.feed_data, if_pos rfl]
    exact ⟨h1, h2⟩
  · simp only [PBuf.feed_data, if_neg hc]
    set pb1 : PBuf := { pb with data := pb.data ++ c,
                                size := pb.size + c.length } with hpb1
    have hwf1 : pb1.wf := by
      constructor
      · simp [hpb1]; omega
      · simp [hpb1]; omega
    have hpend1 : pb1.pending = pb.pending ++ c := by
      simp only [hpb1, PBuf.pending]
      exact List.drop_append_of_le_length h1
    split
    · exact ⟨PBuf.shrink_wf hwf1, by rw [PBuf.shrink_pending]; exact hpend1⟩
    · exact ⟨hwf1, hpend1⟩

theorem readuntilScan_found {pb : PBuf} {pos : Nat} (stop : List Nat)
    (limit : Option Nat)
    (hfd : findFrom pb.data stop pb.offset = some pos) :
    pb.readuntilScan stop limit =
      (if (match limit with
            | some l => decide (l < pos + stop.length - pb.offset)
            | none => false) then .tooLong
       else .line ((pb.data.drop pb.offset).take (pos + stop.length - pb.offset))
              { pb with offset := pos + stop.length,
                        size := pb.size - (pos + stop.length - pb.offset) }) := by
  unfold PBuf.readuntilScan
  rw [hfd]

theorem readuntilScan_notFound {pb : PBuf} (stop : List Nat)
    (limit : Option Nat) (hfd : findFrom pb.data stop pb.offset = none) :
    pb.readuntilScan stop limit =
      (if (match limit with
            | some l => decide (l < pb.size)
            | none => false) then .tooLong
       else .needMore pb) := by
  unfold PBuf.readuntilScan
  rw [hfd]

theorem scanL_found {pending : List Nat} {pos : Nat} (stop : List Nat)
    (limit : Option Nat) (hfd : findFrom pending stop 0 = some pos) :
    scanL stop limit pending =
      (if (match limit with
            | some l => decide (l < pos + stop.length)
            | none => false) then .tooLong
       else .line (pending.take (pos + stop.length))
              (pending.drop (pos + stop.length))) := by
  unfold scanL
  rw [hfd]

theorem scanL_notFound {pending : List Nat} (stop : List Nat)
    (limit : Option Nat) (hfd : findFrom pending stop 0 = none) :
    scanL stop limit pending =
      (if (match limit with
            | some l => decide (l < pending.length)
            | none => false) then .tooLong
       else .needMore) := by
  unfold scanL
  rw [hfd]

/-- The physical scan agrees with the logical scan on well-formed buffers:
a need-more scan leaves the buffer unchanged, a too-long scan errs in
both, and a found line is the same byte string, with the successor buffer
well-formed and holding the logical rest. -/
theorem readuntilScan_sim {pb : PBuf} (hwf : pb.wf) (stop : List Nat)
    (limit : Option Nat) :
    (scanL stop limit pb.pending = .needMore →
      pb.readuntilScan stop limit = .needMore pb) ∧
    (scanL stop limit pb.pending = .tooLong →
      pb.readuntilScan stop limit = .tooLong) ∧
    (∀ bs rest, scanL stop limit pb.pending = .line bs rest →
      ∃ pb', pb.readuntilScan stop limit = .line bs pb' ∧ pb'.wf ∧
        pb'.pending = rest) := by
  obtain ⟨h1, h2⟩ := hwf
  have hlenp : pb.pending.length = pb.data.length - pb.offset := by
    simp [PBuf.pending]
  have hshift : findFrom pb.data stop pb.offset =
      (findFrom pb.pending stop 0).map (fun q => pb.offset + q) :=
    findFrom_shift h1
  cases hfd : findFrom pb.pending stop 0 with
  | none =>
      have hphys : findFrom pb.data stop pb.offset = none := by
        rw [hshift, hfd]; rfl
      rw [scanL_notFound stop limit hfd,
        readuntilScan_notFound stop limit hphys]
      cases limit with
      | none => simp
      | some l =>
          have : pb.size = pb.pending.length := by omega
          rw [this]
          split <;> simp
  | some q =>
      obtain ⟨-, hqm, -⟩ := findFrom_some pb.pending stop 0 q hfd
      have hqle : q + stop.length ≤ pb.pending.length := hqm.1
      have hphys : findFrom pb.data stop pb.offset = some (pb.offset + q) := by
        rw [hshift, hfd]; rfl
      rw [scanL_found stop limit hfd,
        readuntilScan_found stop limit hphys]
      have hsz : pb.offset + q + stop.length - pb.offset = q + stop.length := by
        omega
      rw [hsz]
      have hline : (pb.data.drop pb.offset).take (q + stop.length) =
          pb.pending.take (q + stop.length) := rfl
      have hrest : pb.data.drop (pb.offset + q + stop.length) =
          pb.pending.drop (q + stop.length) := by
        unfold PBuf.pending
        rw [List.drop_drop]
        ring_nf
      cases limit with
      | none =>
          simp only [if_neg (by simp : ¬(false = true))]
          refine ⟨fun hs => absurd hs (by simp), fun hs => absurd hs (by simp),
            ?_⟩
          intro bs rest hs
          simp only [LScan.line.injEq] at hs
          obtain ⟨rfl, rfl⟩ := hs
          refine ⟨_, rfl, ?_, ?_⟩
          · constructor
            · simp only
              omega
            · simp only
              omega
          · simpa [PBuf.pending] using hrest
      | some l =>
          by_cases hbig : l < q + stop.length
          · rw [if_pos (by simpa using hbig), if_pos (by simpa using hbig)]
            exact ⟨fun hs => absurd hs (by simp), fun _ => rfl,
              fun bs rest hs => absurd hs (by simp)⟩
          · rw [if_neg (by simpa using hbig), if_neg (by simpa using hbig)]
            refine ⟨fun hs => absurd hs (by simp),
              fun hs => absurd hs (by simp), ?_⟩
            intro bs rest hs
            simp only [LScan.line.injEq] at hs
            obtain ⟨rfl, rfl⟩ := hs
            refine ⟨_, rfl, ?_, ?_⟩
            · constructor
              · simp only
                omega
              · simp only
                omega
            · simpa [PBuf.pending] using hrest

/-! ## Helper lemmas: driving readuntil -/

theorem driveReaduntil_sim (stop : List Nat) (limit : Option Nat) :
    ∀ (chunks : List (List Nat)) (pb : PBuf), pb.wf →
      driveReaduntil stop limit chunks pb =
        driveL stop limit chunks pb.pending := by
  intro chunks
  induction chunks with
  | nil =>
      intro pb hwf
      rw [driveReaduntil, driveL]
      obtain ⟨s1, s2, s3⟩ := readuntilScan_sim hwf stop limit
      cases hs : scanL stop limit pb.pending with
      | line bs rest =>
          obtain ⟨pb', hphys, _, _⟩ := s3 bs rest hs
          rw [hphys]
      | tooLong => rw [s2 hs]
      | needMore => rw [s1 hs]
  | cons c cs ih =>
      intro pb hwf
      rw [driveReaduntil, driveL]
      obtain ⟨s1, s2, s3⟩ := readuntilScan_sim hwf stop limit
      cases hs : scanL stop limit pb.pending with
      | line bs rest =>
          obtain ⟨pb', hphys, _, _⟩ := s3 bs rest hs
          rw [hphys]
      | tooLong => rw [s2 hs]
      | needMore =>
          rw [s1 hs]
          obtain ⟨hwf', hpend'⟩ := feed_data_pending hwf c
          show driveReaduntil stop limit cs (pb.feed_data c) = _
          rw [ih (pb.feed_data c) hwf', hpend']

theorem scanL_line_append {stop : List Nat} {limit : Option Nat}
    {pending bs rest : List Nat} (v : List Nat)
    (h : scanL stop limit pending = .line bs rest) :
    scanL stop limit (pending ++ v) = .line bs (rest ++ v) := by
  cases hfd : findFrom pending stop 0 with
  | none =>
      rw [scanL_notFound _ _ hfd] at h
      split at h <;> simp at h
  | some q =>
      rw [scanL_found _ _ hfd] at h
      rw [scanL_found _ _ (findFrom_append v hfd)]
      obtain ⟨-, hqm, -⟩ := findFrom_some pending stop 0 q hfd
      have hqle : q + stop.length ≤ pending.length := hqm.1
      split at h
      · simp at h
      · rename_i hbig
        rw [if_neg hbig]
        simp only [LScan.line.injEq] at h ⊢
        obtain ⟨rfl, rfl⟩ := h
        exact ⟨List.take_append_of_le_length hqle,
          List.drop_append_of_le_length (by omega)⟩

theorem scanL_tooLong_append {stop : List Nat} {limit : Option Nat}
    {pending : List Nat} (v : List Nat)
    (h : scanL stop limit pending = .tooLong) :
    scanL stop limit (pending ++ v) = .tooLong := by
  cases hfd : findFrom pending stop 0 with
  | some q =>
      rw [scanL_found _ _ hfd] at h
      rw [scanL_found _ _ (findFrom_append v hfd)]
      split at h
      · rename_i hbig
        rw [if_pos hbig]
      · simp at h
  | none =>
      rw [scanL_notFound _ _ hfd] at h
      cases limit with
      | none => simp at h
      | some l =>
          split at h
          case isFalse => simp at h
          rename_i hbig
          simp only [decide_eq_true_eq] at hbig
          cases hfd2 : findFrom (pending ++ v) stop 0 with
          | none =>
              rw [scanL_notFound _ _ hfd2]
              rw [if_pos (by simp; omega)]
          | some p =>
              have hbound := findFrom_append_none hfd hfd2
              rw [scanL_found _ _ hfd2]
              rw [if_pos (by simp; omega)]

theorem driveL_line {stop : List Nat} {limit : Option Nat}
    {pending bs rest : List Nat} (chunks : List (List Nat))
    (hs : scanL stop limit pending = .line bs rest) :
    driveL stop limit chunks pending = .line bs := by
  cases chunks <;> rw [driveL, hs]

theorem driveL_tooLong {stop : List Nat} {limit : Option Nat}
    {pending : List Nat} (chunks : List (List Nat))
    (hs : scanL stop limit pending = .tooLong) :
    driveL stop limit chunks pending = .tooLong := by
  cases chunks <;> rw [driveL, hs]

theorem driveL_nil_needMore {stop : List Nat} {limit : Option Nat}
    {pending : List Nat} (hs : scanL stop limit pending = .needMore) :
    driveL stop limit [] pending = .needMoreResidue pending := by
  rw [driveL, hs]

theorem driveL_cons_needMore {stop : List Nat} {limit : Option Nat}
    {pending : List Nat} (c : List Nat) (cs : List (List Nat))
    (hs : scanL stop limit pending = .needMore) :
    driveL stop limit (c :: cs) pending =
      driveL stop limit cs (pending ++ c) := by
  rw [driveL, hs]

theorem driveL_flatten (stop : List Nat) (limit : Option Nat) :
    ∀ (chunks : List (List Nat)) (pending : List Nat),
      driveL stop limit chunks pending =
        driveL stop limit [] (pending ++ chunks.flatten) := by
  intro chunks
  induction chunks with
  | nil =>
      intro pending
      rw [List.flatten_nil, List.append_nil]
  | cons c cs ih =>
      intro pending
      cases hs : scanL stop limit pending with
      | line bs rest =>
          rw [driveL_line (c :: cs) hs,
            driveL_line [] (scanL_line_append (c :: cs).flatten hs)]
      | tooLong =>
          rw [driveL_tooLong (c :: cs) hs,
            driveL_tooLong [] (scanL_tooLong_append (c :: cs).flatten hs)]
      | needMore =>
          rw [driveL_cons_needMore c cs hs, ih (pending ++ c),
            List.append_assoc, List.flatten_cons]

/-- Driving one `readuntil` call with the chunks of a partition gives the
same observation as driving it with the concatenation in one chunk. -/
theorem readuntil_roundtrip (stop : List Nat) (limit : Option Nat)
    (chunks : List (List Nat)) :
    driveReaduntil stop limit chunks PBuf.mk0 =
      driveReaduntil stop limit [chunks.flatten] PBuf.mk0 := by
  rw [driveReaduntil_sim stop limit chunks PBuf.mk0 PBuf.mk0_wf,
    driveReaduntil_sim stop limit [chunks.flatten] PBuf.mk0 PBuf.mk0_wf,
    PBuf.mk0_pending,
    driveL_flatten stop limit chunks [],
    driveL_flatten stop limit [chunks.flatten] []]
  simp

/-! ## Helper lemmas: line extraction -/

theorem scanL_nil {stop : List Nat} (hstop : stop ≠ [])
    (limit : Option Nat) : scanL stop limit [] = .needMore := by
  have hfd : findFrom [] stop 0 = none := by
    rw [findFrom]
    rw [dif_neg (by
      have := List.length_pos.mpr hstop
      simp only [List.length_nil]
      omega)]
  rw [scanL_notFound _ _ hfd]
  cases limit <;> simp

theorem scanL_line_elim {stop : List Nat} {limit : Option Nat}
    {pending bs rest : List Nat}
    (h : scanL stop limit pending = .line bs rest) :
    ∃ pos, findFrom pending stop 0 = some pos ∧
      bs = pending.take (pos + stop.length) ∧
      rest = pending.drop (pos + stop.length) ∧
      pos + stop.length ≤ pending.length := by
  cases hfd : findFrom pending stop 0 with
  | none =>
      rw [scanL_notFound _ _ hfd] at h
      split at h <;> simp at h
  | some pos =>
      rw [scanL_found _ _ hfd] at h
      obtain ⟨-, hm, -⟩ := findFrom_some pending stop 0 pos hfd
      split at h
      · simp at h
      · simp only [LScan.line.injEq] at h
        obtain ⟨rfl, rfl⟩ := h
        exact ⟨pos, rfl, rfl, rfl, hm.1⟩

theorem scanL_line_shrinks {stop : List Nat} (hstop : stop ≠ [])
    {limit : Option Nat} {pending bs rest : List Nat}
    (h : scanL stop limit pending = .line bs rest) :
    rest.length < pending.length := by
  obtain ⟨pos, -, -, hrest, hle⟩ := scanL_line_elim h
  have hpos : 0 < stop.length := List.length_pos.mpr hstop
  subst hrest
  rw [List.length_drop]
  omega

theorem extractL_line {stop : List Nat} {limit : Option Nat}
    {pending bs rest : List Nat} (fuel : Nat)
    (hs : scanL stop limit pending = .line bs rest) :
    extractL stop limit (fuel + 1) pending =
      (bs :: (extractL stop limit fuel rest).1,
       (extractL stop limit fuel rest).2.1,
       (extractL stop limit fuel rest).2.2) := by
  rw [extractL, hs]

theorem extractL_tooLong {stop : List Nat} {limit : Option Nat}
    {pending : List Nat} (fuel : Nat)
    (hs : scanL stop limit pending = .tooLong) :
    extractL stop limit (fuel + 1) pending = ([], pending, true) := by
  rw [extractL, hs]

theorem extractL_needMore {stop : List Nat} {limit : Option Nat}
    {pending : List Nat} (fuel : Nat)
    (hs : scanL stop limit pending = .needMore) :
    extractL stop limit (fuel + 1) pending = ([], pending, false) := by
  rw [extractL, hs]

theorem extractLoop_line {stop : List Nat} {limit : Option Nat}
    {pb pb1 : PBuf} {bs : List Nat} (fuel : Nat)
    (hs : pb.readuntilScan stop limit = .line bs pb1) :
    extractLoop stop limit (fuel + 1) pb =
      (bs :: (extractLoop stop limit fuel pb1).1,
       (extractLoop stop limit fuel pb1).2.1,
       (extractLoop stop limit fuel pb1).2.2) := by
  rw [extractLoop, hs]

theorem extractLoop_tooLong {stop : List Nat} {limit : Option Nat}
    {pb : PBuf} (fuel : Nat)
    (hs : pb.readuntilScan stop limit = .tooLong) :
    extractLoop stop limit (fuel + 1) pb = ([], pb, true) := by
  rw [extractLoop, hs]

theorem extractLoop_needMore {stop : List Nat} {limit : Option Nat}
    {pb pb1 : PBuf} (fuel : Nat)
    (hs : pb.readuntilScan stop limit = .needMore pb1) :
    extractLoop stop limit (fuel + 1) pb = ([], pb1, false) := by
  rw [extractLoop, hs]

theorem extractL_fuel (stop : List Nat) (hstop : stop ≠ [])
    (limit : Option Nat) :
    ∀ (pending : List Nat) (f1 f2 : Nat), pending.length < f1 →
      pending.length < f2 →
      extractL stop limit f1 pending = extractL stop limit f2 pending := by
  have main : ∀ (n : Nat) (pending : List Nat) (f1 f2 : Nat),
      pending.length ≤ n → pending.length < f1 → pending.length < f2 →
      extractL stop limit f1 pending = extractL stop limit f2 pending := by
    intro n
    induction n with
    | zero =>
        intro pending f1 f2 hlen h1 h2
        have hp : pending = [] := List.length_eq_zero.mp (by omega)
        subst hp
        obtain ⟨k1, rfl⟩ : ∃ k, f1 = k + 1 := ⟨f1 - 1, by omega⟩
        obtain ⟨k2, rfl⟩ : ∃ k, f2 = k + 1 := ⟨f2 - 1, by omega⟩
        rw [extractL, extractL, scanL_nil hstop]
    | succ n ih =>
        intro pending f1 f2 hlen h1 h2
        obtain ⟨k1, rfl⟩ : ∃ k, f1 = k + 1 := ⟨f1 - 1, by omega⟩
        obtain ⟨k2, rfl⟩ : ∃ k, f2 = k + 1 := ⟨f2 - 1, by omega⟩
        cases hs : scanL stop limit pending with
        | line bs rest =>
            have hlt : rest.length < pending.length :=
              scanL_line_shrinks hstop hs
            rw [extractL_line k1 hs, extractL_line k2 hs,
              ih rest k1 k2 (by omega) (by omega) (by omega)]
        | tooLong => rw [extractL_tooLong k1 hs, extractL_tooLong k2 hs]
        | needMore => rw [extractL_needMore k1 hs, extractL_needMore k2 hs]
  intro pending f1 f2 h1 h2
  exact main pending.length pending f1 f2 le_rfl h1 h2

/-- The physical extraction loop agrees with the logical one on well-formed
buffers, componentwise, for equal fuel. -/
theorem extractLoop_sim (stop : List Nat) (limit : Option Nat) :
    ∀ (fuel : Nat) (pb : PBuf), pb.wf →
      (extractLoop stop limit fuel pb).1 =
        (extractL stop limit fuel pb.pending).1 ∧
      (extractLoop stop limit fuel pb).2.2 =
        (extractL stop limit fuel pb.pending).2.2 ∧
      (extractLoop stop limit fuel pb).2.1.wf ∧
      (extractLoop stop limit fuel pb).2.1.pending =
        (extractL stop limit fuel pb.pending).2.1 := by
  intro fuel
  induction fuel with
  | zero =>
      intro pb hwf
      exact ⟨rfl, rfl, hwf, rfl⟩
  | succ n ih =>
      intro pb hwf
      obtain ⟨s1, s2, s3⟩ := readuntilScan_sim hwf stop limit
      cases hs : scanL stop limit pb.pending with
      | line bs rest =>
          obtain ⟨pb', hphys, hwf', hpend'⟩ := s3 bs rest hs
          rw [extractLoop_line n hphys, extractL_line n hs]
          obtain ⟨e1, e2, e3, e4⟩ := ih pb' hwf'
          rw [hpend'] at e1 e2 e4
          exact ⟨by simpa using e1, by simpa using e2, e3, by simpa using e4⟩
      | tooLong =>
          rw [extractLoop_tooLong n (s2 hs), extractL_tooLong n hs]
          exact ⟨rfl, rfl, hwf, rfl⟩
      | needMore =>
          rw [extractLoop_needMore n (s1 hs), extractL_needMore n hs]
          exact ⟨rfl, rfl, hwf, rfl⟩

theorem PBuf.size_eq_pending {pb : PBuf} (h : pb.wf) :
    pb.size = pb.pending.length := by
  obtain ⟨h1, h2⟩ := h
  simp [PBuf.pending]
  omega

/-- Extraction composes across an append: if extracting from `P` ends
without error in residue `r`, then extracting from `P ++ c` yields the
lines of `P` followed by those of `r ++ c` (with the latter's residue and
error); and once extraction from `P` errs, extraction from `P ++ c` errs
with the same lines. -/
theorem linesOfL_append (stop : List Nat) (hstop : stop ≠ [])
    (limit : Option Nat) :
    ∀ (P c : List Nat),
      ((linesOfL stop limit P).2.2 = false →
        linesOfL stop limit (P ++ c) =
          ((linesOfL stop limit P).1 ++
              (linesOfL stop limit ((linesOfL stop limit P).2.1 ++ c)).1,
           (linesOfL stop limit ((linesOfL stop limit P).2.1 ++ c)).2.1,
           (linesOfL stop limit ((linesOfL stop limit P).2.1 ++ c)).2.2)) ∧
      ((linesOfL stop limit P).2.2 = true →
        (linesOfL stop limit (P ++ c)).1 = (linesOfL stop limit P).1 ∧
        (linesOfL stop limit (P ++ c)).2.2 = true) := by
  have main : ∀ (n : Nat) (P c : List Nat), P.length ≤ n →
      ((linesOfL stop limit P).2.2 = false →
        linesOfL stop limit (P ++ c) =
          ((linesOfL stop limit P).1 ++
              (linesOfL stop limit ((linesOfL stop limit P).2.1 ++ c)).1,
           (linesOfL stop limit ((linesOfL stop limit P).2.1 ++ c)).2.1,
           (linesOfL stop limit ((linesOfL stop limit P).2.1 ++ c)).2.2)) ∧
      ((linesOfL stop limit P).2.2 = true →
        (linesOfL stop limit (P ++ c)).1 = (linesOfL stop limit P).1 ∧
        (linesOfL stop limit (P ++ c)).2.2 = true) := by
    intro n
    induction n using Nat.strong_induction_on with
    | _ n ih =>
        intro P c hlen
        cases hs : scanL stop limit P with
        | needMore =>
            have hP : linesOfL stop limit P = ([], P, false) :=
              extractL_needMore P.length hs
            rw [hP]
            constructor
            · intro _
              simp only [List.nil_append]
            · intro hf
              simp at hf
        | tooLong =>
            have hP : linesOfL stop limit P = ([], P, true) :=
              extractL_tooLong P.length hs
            have hPc : linesOfL stop limit (P ++ c) = ([], P ++ c, true) :=
              extractL_tooLong (P ++ c).length (scanL_tooLong_append c hs)
            rw [hP, hPc]
            constructor
            · intro hf
              simp at hf
            · intro _
              exact ⟨rfl, rfl⟩
        | line bs rest =>
            have hlt : rest.length < P.length := scanL_line_shrinks hstop hs
            have hfuel1 : extractL stop limit P.length rest =
                linesOfL stop limit rest :=
              extractL_fuel stop hstop limit rest P.length
                (rest.length + 1) hlt (by omega)
            have hP : linesOfL stop limit P =
                (bs :: (linesOfL stop limit rest).1,
                 (linesOfL stop limit rest).2.1,
                 (linesOfL stop limit rest).2.2) := by
              show extractL stop limit (P.length + 1) P = _
              rw [extractL_line P.length hs, hfuel1]
            have hfuel2 : extractL stop limit (P ++ c).length (rest ++ c) =
                linesOfL stop limit (rest ++ c) :=
              extractL_fuel stop hstop limit (rest ++ c) (P ++ c).length
                ((rest ++ c).length + 1) (by simp; omega) (by omega)
            have hPc : linesOfL stop limit (P ++ c) =
                (bs :: (linesOfL stop limit (rest ++ c)).1,
                 (linesOfL stop limit (rest ++ c)).2.1,
                 (linesOfL stop limit (rest ++ c)).2.2) := by
              show extractL stop limit ((P ++ c).length + 1) (P ++ c) = _
              rw [extractL_line (P ++ c).length (scanL_line_append c hs),
                hfuel2]
            obtain ⟨ih1, ih2⟩ := ih rest.length (by omega) rest c le_rfl
            rw [hP, hPc]
            constructor
            · intro hf
              have hrf : (linesOfL stop limit rest).2.2 = false := hf
              rw [ih1 hrf]
              simp
            · intro ht
              have hrt : (linesOfL stop limit rest).2.2 = true := ht
              obtain ⟨e1, e2⟩ := ih2 hrt
              exact ⟨by simp [e1], by simp [e2]⟩
  intro P c
  exact main P.length P c le_rfl

theorem linesOfL_nil {stop : List Nat} (hstop : stop ≠ [])
    (limit : Option Nat) : linesOfL stop limit [] = ([], [], false) := by
  show extractL stop limit 1 [] = _
  rw [extractL_needMore 0 (scanL_nil hstop limit)]

theorem pipeInv_init (stop : List Nat) (hstop : stop ≠ [])
    (limit : Option Nat) :
    PipeInv stop limit [] (LinesPipe.init stop limit) := by
  obtain ⟨e1, e2, e3, e4⟩ :=
    extractLoop_sim stop limit (PBuf.mk0.size + 1) PBuf.mk0 PBuf.mk0_wf
  rw [PBuf.mk0_pending] at e1 e2 e4
  have hL : extractL stop limit (PBuf.mk0.size + 1) [] =
      linesOfL stop limit [] := rfl
  rw [hL, linesOfL_nil hstop limit] at e1 e2 e4
  unfold PipeInv LinesPipe.init
  rw [linesOfL_nil hstop limit]
  refine ⟨by simpa using e1, by simpa using e2, by simp [e2], rfl, rfl, e3,
    fun _ => by simpa using e4⟩

theorem pipeInv_feed (stop : List Nat) (hstop : stop ≠ [])
    (limit : Option Nat) (c S : List Nat) (p : LinesPipe)
    (hp : PipeInv stop limit S p) :
    PipeInv stop limit (S ++ c) (p.feed stop limit c) := by
  obtain ⟨h1, h2, h3, h4, h5, h6, h7⟩ := hp
  by_cases hc : c = []
  · subst hc
    rw [List.append_nil]
    exact ⟨by simpa [LinesPipe.feed] using h1,
      by simpa [LinesPipe.feed] using h2,
      by simpa [LinesPipe.feed] using h3,
      by simpa [LinesPipe.feed] using h4,
      by simpa [LinesPipe.feed] using h5,
      by simpa [LinesPipe.feed] using h6,
      fun he => by simpa [LinesPipe.feed] using h7 he⟩
  obtain ⟨ihA, ihB⟩ := linesOfL_append stop hstop limit S c
  by_cases hatt : p.attached = true
  · have herr : (linesOfL stop limit S).2.2 = false := h3.mp hatt
    have hres := h7 herr
    obtain ⟨hwf1, hpend1⟩ := feed_data_pending h6 c
    have hsz : (p.buf.feed_data c).size + 1 =
        ((linesOfL stop limit S).2.1 ++ c).length + 1 := by
      rw [PBuf.size_eq_pending hwf1, hpend1, hres]
    have hfold : extractL stop limit ((p.buf.feed_data c).size + 1)
        ((linesOfL stop limit S).2.1 ++ c) =
        linesOfL stop limit ((linesOfL stop limit S).2.1 ++ c) := by
      rw [hsz]
      rfl
    obtain ⟨e1, e2, e3, e4⟩ := extractLoop_sim stop limit
      ((p.buf.feed_data c).size + 1) (p.buf.feed_data c) hwf1
    rw [hpend1, hres, hfold] at e1 e2 e4
    have hcomp := ihA herr
    unfold PipeInv
    rw [hcomp]
    simp only [LinesPipe.feed, if_neg hc, hatt, if_true]
    by_cases herr2 :
        (linesOfL stop limit ((linesOfL stop limit S).2.1 ++ c)).2.2 = true
    · rw [if_pos (e2.trans herr2)]
      refine ⟨by simp [h1, e1], by simp [herr2], by simp [herr2],
        by simpa using h4, by simpa using h5, by simpa using e3, ?_⟩
      intro hfalse
      rw [herr2] at hfalse
      simp at hfalse
    · have herr2' :
          (linesOfL stop limit ((linesOfL stop limit S).2.1 ++ c)).2.2 =
            false := by
        simpa using herr2
      rw [if_neg (by simp [e2, herr2'])]
      refine ⟨by simp [h1, e1], by simp [h2, herr, herr2'],
        by simp [hatt, herr2'], by simpa using h4, by simpa using h5,
        by simpa using e3, ?_⟩
      intro _
      simpa using e4
  · have hattf : p.attached = false := by
      simpa using hatt
    have herr : (linesOfL stop limit S).2.2 = true := by
      by_contra hcon
      exact hatt (h3.mpr (by simpa using hcon))
    obtain ⟨e1, e2⟩ := ihB herr
    obtain ⟨hwf1, -⟩ := feed_data_pending h6 c
    unfold PipeInv
    simp only [LinesPipe.feed, if_neg hc, hattf]
    refine ⟨by simp [h1, e1], by simp [h2, herr, e2], by simp [hattf, e2],
      h4, h5, by simpa using hwf1, ?_⟩
    intro hfalse
    rw [e2] at hfalse
    simp at hfalse

theorem pipeInv_feedAll (stop : List Nat) (hstop : stop ≠ [])
    (limit : Option Nat) :
    ∀ (chunks : List (List Nat)) (S : List Nat) (p : LinesPipe),
      PipeInv stop limit S p →
      PipeInv stop limit (S ++ chunks.flatten)
        (LinesPipe.feedAll stop limit chunks p) := by
  intro chunks
  induction chunks with
  | nil =>
      intro S p hp
      simpa [LinesPipe.feedAll] using hp
  | cons c cs ih =>
      intro S p hp
      have h1 := pipeInv_feed stop hstop limit c S p hp
      have h2 := ih (S ++ c) (p.feed stop limit c) h1
      have hfa : LinesPipe.feedAll stop limit (c :: cs) p =
          LinesPipe.feedAll stop limit cs (p.feed stop limit c) := rfl
      rw [hfa, show S ++ (c :: cs).flatten = S ++ c ++ cs.flatten from by
        simp]
      exact h2

theorem pipeline_roundtrip (stop : List Nat) (hstop : stop ≠ [])
    (limit : Option Nat) (chunks : List (List Nat)) :
    (LinesPipe.feedEof (LinesPipe.feedAll stop limit chunks
        (LinesPipe.init stop limit))).obs =
      (LinesPipe.feedEof (LinesPipe.feedAll stop limit [chunks.flatten]
        (LinesPipe.init stop limit))).obs := by
  have hA := pipeInv_feedAll stop hstop limit chunks []
    (LinesPipe.init stop limit) (pipeInv_init stop hstop limit)
  have hB := pipeInv_feedAll stop hstop limit [chunks.flatten] []
    (LinesPipe.init stop limit) (pipeInv_init stop hstop limit)
  rw [List.nil_append] at hA
  rw [show ([] : List Nat) ++ [chunks.flatten].flatten = chunks.flatten
    from by simp] at hB
  obtain ⟨a1, a2, a3, a4, a5, -, -⟩ := hA
  obtain ⟨b1, b2, b3, b4, b5, -, -⟩ := hB
  unfold LinesPipe.feedEof LinesPipe.obs
  by_cases herr : (linesOfL stop limit chunks.flatten).2.2 = true
  · have hAatt : (LinesPipe.feedAll stop limit chunks
        (LinesPipe.init stop limit)).attached = false := by
      by_contra hcon
      have ht : (LinesPipe.feedAll stop limit chunks
          (LinesPipe.init stop limit)).attached = true := by
        simpa using hcon
      rw [a3.mp ht] at herr
      simp at herr
    have hBatt : (LinesPipe.feedAll stop limit [chunks.flatten]
        (LinesPipe.init stop limit)).attached = false := by
      by_contra hcon
      have ht : (LinesPipe.feedAll stop limit [chunks.flatten]
          (LinesPipe.init stop limit)).attached = true := by
        simpa using hcon
      rw [b3.mp ht] at herr
      simp at herr
    rw [hAatt, hBatt]
    simp [a1, b1, a2, b2, a4, b4]
  · have herr' : (linesOfL stop limit chunks.flatten).2.2 = false := by
      simpa using herr
    rw [a3.mpr herr', b3.mpr herr']
    simp [a1, b1, a2, b2]

/-! ## Helper lemmas: block extraction (chunks parser) -/

theorem readScan_some {pb : PBuf} (hwf : pb.wf) {size : Nat}
    (hle : size ≤ pb.pending.length) :
    ∃ pb1, pb.readScan size = some (pb.pending.take size, pb1) ∧ pb1.wf ∧
      pb1.pending = pb.pending.drop size := by
  have hsz := PBuf.size_eq_pending hwf
  have hpl : pb.pending.length = pb.data.length - pb.offset := by
    simp [PBuf.pending]
  obtain ⟨h1, h2⟩ := hwf
  unfold PBuf.readScan
  rw [if_pos (by omega)]
  refine ⟨_, rfl, ⟨?_, ?_⟩, ?_⟩
  · simp only
    omega
  · simp only
    omega
  · simp [PBuf.pending, List.drop_drop]

theorem readScan_none {pb : PBuf} (hwf : pb.wf) {size : Nat}
    (hgt : pb.pending.length < size) : pb.readScan size = none := by
  have hsz := PBuf.size_eq_pending hwf
  unfold PBuf.readScan
  rw [if_neg (by omega)]

theorem blockLoop_some {size : Nat} {pb pb1 : PBuf} {bs : List Nat}
    (fuel : Nat) (h : pb.readScan size = some (bs, pb1)) :
    blockLoop size (fuel + 1) pb =
      (bs :: (blockLoop size fuel pb1).1, (blockLoop size fuel pb1).2) := by
  rw [blockLoop, h]

theorem blockLoop_none {size : Nat} {pb : PBuf} (fuel : Nat)
    (h : pb.readScan size = none) :
    blockLoop size (fuel + 1) pb = ([], pb) := by
  rw [blockLoop, h]

theorem blocksL_le {size : Nat} {pending : List Nat} (fuel : Nat)
    (hle : size ≤ pending.length) :
    blocksL size (fuel + 1) pending =
      (pending.take size :: (blocksL size fuel (pending.drop size)).1,
       (blocksL size fuel (pending.drop size)).2) := by
  rw [blocksL, if_pos hle]

theorem blocksL_gt {size : Nat} {pending : List Nat} (fuel : Nat)
    (hgt : pending.length < size) :
    blocksL size (fuel + 1) pending = ([], pending) := by
  rw [blocksL, if_neg (by omega)]

/-- The physical block loop agrees with the logical one on well-formed
buffers, componentwise, for equal fuel. -/
theorem blockLoop_sim (size : Nat) :
    ∀ (fuel : Nat) (pb : PBuf), pb.wf →
      (blockLoop size fuel pb).1 = (blocksL size fuel pb.pending).1 ∧
      (blockLoop size fuel pb).2.wf ∧
      (blockLoop size fuel pb).2.pending =
        (blocksL size fuel pb.pending).2 := by
  intro fuel
  induction fuel with
  | zero =>
      intro pb hwf
      exact ⟨rfl, hwf, rfl⟩
  | succ n ih =>
      intro pb hwf
      by_cases hle : size ≤ pb.pending.length
      · obtain ⟨pb1, hscan, hwf1, hpend1⟩ := readScan_some hwf hle
        rw [blockLoop_some n hscan, blocksL_le n hle]
        obtain ⟨e1, e2, e3⟩ := ih pb1 hwf1
        rw [hpend1] at e1 e3
        exact ⟨by simpa using e1, e2, by simpa using e3⟩
      · rw [blockLoop_none n (readScan_none hwf (by omega)),
          blocksL_gt n (by omega)]
        exact ⟨rfl, hwf, rfl⟩

theorem blocksL_fuel (size : Nat) (hsize : 0 < size) :
    ∀ (pending : List Nat) (f1 f2 : Nat), pending.length < f1 →
      pending.length < f2 →
      blocksL size f1 pending = blocksL size f2 pending := by
  have main : ∀ (n : Nat) (pending : List Nat) (f1 f2 : Nat),
      pending.length ≤ n → pending.length < f1 → pending.length < f2 →
      blocksL size f1 pending = blocksL size f2 pending := by
    intro n
    induction n with
    | zero =>
        intro pending f1 f2 hlen h1 h2
        have hp : pending = [] := List.length_eq_zero.mp (by omega)
        subst hp
        obtain ⟨k1, rfl⟩ : ∃ k, f1 = k + 1 := ⟨f1 - 1, by omega⟩
        obtain ⟨k2, rfl⟩ : ∃ k, f2 = k + 1 := ⟨f2 - 1, by omega⟩
        rw [blocksL_gt k1 (by simpa using hsize),
          blocksL_gt k2 (by simpa using hsize)]
    | succ n ih =>
        intro pending f1 f2 hlen h1 h2
        obtain ⟨k1, rfl⟩ : ∃ k, f1 = k + 1 := ⟨f1 - 1, by omega⟩
        obtain ⟨k2, rfl⟩ : ∃ k, f2 = k + 1 := ⟨f2 - 1, by omega⟩
        by_cases hle : size ≤ pending.length
        · have hdl : (pending.drop size).length < pending.length := by
            rw [List.length_drop]
            omega
          rw [blocksL_le k1 hle, blocksL_le k2 hle,
            ih (pending.drop size) k1 k2 (by omega) (by omega) (by omega)]
        · rw [blocksL_gt k1 (by omega), blocksL_gt k2 (by omega)]
  intro pending f1 f2 h1 h2
  exact main pending.length pending f1 f2 le_rfl h1 h2

/-- Block extraction composes across an append: the blocks of `P ++ c` are
the blocks of `P` followed by the blocks of `residue(P) ++ c`. -/
theorem blocksOfL_append (size : Nat) (hsize : 0 < size) :
    ∀ (P c : List Nat),
      blocksOfL size (P ++ c) =
        ((blocksOfL size P).1 ++
            (blocksOfL size ((blocksOfL size P).2 ++ c)).1,
         (blocksOfL size ((blocksOfL size P).2 ++ c)).2) := by
  have main : ∀ (n : Nat) (P c : List Nat), P.length ≤ n →
      blocksOfL size (P ++ c) =
        ((blocksOfL size P).1 ++
            (blocksOfL size ((blocksOfL size P).2 ++ c)).1,
         (blocksOfL size ((blocksOfL size P).2 ++ c)).2) := by
    intro n
    induction n using Nat.strong_induction_on with
    | _ n ih =>
        intro P c hlen
        by_cases hle : size ≤ P.length
        · have hdl : (P.drop size).length < P.length := by
            rw [List.length_drop]
            omega
          have hfold1 : blocksL size P.length (P.drop size) =
              blocksOfL size (P.drop size) :=
            blocksL_fuel size hsize (P.drop size) P.length
              ((P.drop size).length + 1) hdl (by omega)
          have hP : blocksOfL size P =
              (P.take size :: (blocksOfL size (P.drop size)).1,
               (blocksOfL size (P.drop size)).2) := by
            show blocksL size (P.length + 1) P = _
            rw [blocksL_le P.length hle, hfold1]
          have hle2 : size ≤ (P ++ c).length := by
            rw [List.length_append]
            omega
          have hfold2 : blocksL size (P ++ c).length ((P ++ c).drop size) =
              blocksOfL size (P.drop size ++ c) := by
            rw [List.drop_append_of_le_length hle]
            exact blocksL_fuel size hsize (P.drop size ++ c)
              (P ++ c).length ((P.drop size ++ c).length + 1)
              (by simp [List.length_drop]; omega) (by omega)
          have hPc : blocksOfL size (P ++ c) =
              (P.take size :: (blocksOfL size (P.drop size ++ c)).1,
               (blocksOfL size (P.drop size ++ c)).2) := by
            show blocksL size ((P ++ c).length + 1) (P ++ c) = _
            rw [blocksL_le (P ++ c).length hle2,
              List.take_append_of_le_length hle, hfold2]
          have ih' := ih (P.drop size).length (by omega) (P.drop size) c
            le_rfl
          rw [hP, hPc, ih']
          simp
        · have hP : blocksOfL size P = ([], P) :=
            blocksL_gt P.length (by omega)
          rw [hP]
          rfl
  intro P c
  exact main P.length P c le_rfl

theorem blocksOfL_nil (size : Nat) (hsize : 0 < size) :
    blocksOfL size [] = ([], []) :=
  blocksL_gt 0 (by simpa using hsize)

theorem chunkInv_init (size : Nat) (hsize : 0 < size) :
    ChunkInv size [] (ChunksPipe.init size) := by
  have hscan : PBuf.mk0.readScan size = none :=
    readScan_none PBuf.mk0_wf
      (by rw [PBuf.mk0_pending]; simpa using hsize)
  have hloop : blockLoop size (PBuf.mk0.size + 1) PBuf.mk0 =
      ([], PBuf.mk0) := blockLoop_none 0 hscan
  unfold ChunkInv ChunksPipe.init
  rw [hloop, blocksOfL_nil size hsize]
  exact ⟨rfl, rfl, rfl, rfl, PBuf.mk0_wf, PBuf.mk0_pending⟩

theorem chunkInv_feed (size : Nat) (hsize : 0 < size) (c S : List Nat)
    (p : ChunksPipe) (hp : ChunkInv size S p) :
    ChunkInv size (S ++ c) (ChunksPipe.feed size c p) := by
  obtain ⟨h1, h2, h3, h4, h5, h6⟩ := hp
  by_cases hc : c = []
  · subst hc
    rw [List.append_nil]
    exact ⟨by simpa [ChunksPipe.feed] using h1,
      by simpa [ChunksPipe.feed] using h2,
      by simpa [ChunksPipe.feed] using h3,
      by simpa [ChunksPipe.feed] using h4,
      by simpa [ChunksPipe.feed] using h5,
      by simpa [ChunksPipe.feed] using h6⟩
  · obtain ⟨hwf1, hpend1⟩ := feed_data_pending h5 c
    have hsz : (p.buf.feed_data c).size + 1 =
        ((blocksOfL size S).2 ++ c).length + 1 := by
      rw [PBuf.size_eq_pending hwf1, hpend1, h6]
    have hfold : blocksL size ((p.buf.feed_data c).size + 1)
        ((blocksOfL size S).2 ++ c) =
        blocksOfL size ((blocksOfL size S).2 ++ c) := by
      rw [hsz]
      rfl
    obtain ⟨e1, e2, e3⟩ := blockLoop_sim size
      ((p.buf.feed_data c).size + 1) (p.buf.feed_data c) hwf1
    rw [hpend1, h6, hfold] at e1 e3
    have hcomp := blocksOfL_append size hsize S c
    unfold ChunkInv
    rw [hcomp]
    simp only [ChunksPipe.feed, if_neg hc, h2, if_true]
    exact ⟨by simp [h1, e1], by simp [h2], by simpa using h3,
      by simpa using h4, by simpa using e2, by simpa using e3⟩

theorem chunkInv_feedAll (size : Nat) (hsize : 0 < size) :
    ∀ (chunks : List (List Nat)) (S : List Nat) (p : ChunksPipe),
      ChunkInv size S p →
      ChunkInv size (S ++ chunks.flatten)
        (ChunksPipe.feedAll size chunks p) := by
  intro chunks
  induction chunks with
  | nil =>
      intro S p hp
      simpa [ChunksPipe.feedAll] using hp
  | cons c cs ih =>
      intro S p hp
      have h1 := chunkInv_feed size hsize c S p hp
      have h2 := ih (S ++ c) (ChunksPipe.feed size c p) h1
      have hfa : ChunksPipe.feedAll size (c :: cs) p =
          ChunksPipe.feedAll size cs (ChunksPipe.feed size c p) := rfl
      rw [hfa, show S ++ (c :: cs).flatten = S ++ c ++ cs.flatten from by
        simp]
      exact h2

theorem chunks_roundtrip (size : Nat) (hsize : 0 < size)
    (chunks : List (List Nat)) :
    (ChunksPipe.feedEof (ChunksPipe.feedAll size chunks
        (ChunksPipe.init size))).obs =
      (ChunksPipe.feedEof (ChunksPipe.feedAll size [chunks.flatten]
        (ChunksPipe.init size))).obs := by
  have hA := chunkInv_feedAll size hsize chunks [] (ChunksPipe.init size)
    (chunkInv_init size hsize)
  have hB := chunkInv_feedAll size hsize [chunks.flatten] []
    (ChunksPipe.init size) (chunkInv_init size hsize)
  rw [List.nil_append] at hA
  rw [show ([] : List Nat) ++ [chunks.flatten].flatten = chunks.flatten
    from by simp] at hB
  obtain ⟨a1, a2, -, -, -, -⟩ := hA
  obtain ⟨b1, b2, -, -, -, -⟩ := hB
  unfold ChunksPipe.feedEof ChunksPipe.obs
  rw [a2, b2]
  simp [a1, b1]

/-! ## Claim C2 -/

/-- C2 counterexample: the round-trip law fails as a law over *every*
parser.  The echo parser — a conforming parser that consumes its input
through the module's own `readsome` primitive — produces DataBuffer items
`[[97], [98]]` when the byte string `[97, 98]` is fed as the two chunks
`[97]`, `[98]` followed by EOF, but `[[97, 98]]` when the same bytes are
fed in a single chunk followed by EOF: the DataBuffer contents depend on
the partitioning. -/
theorem c2_roundtrip_counterexample :
    (EchoPipe.feedEof
        (EchoPipe.feed [98] (EchoPipe.feed [97] EchoPipe.init))).items =
      [[97], [98]] ∧
    (EchoPipe.feedEof (EchoPipe.feed [97, 98] EchoPipe.init)).items =
      [[97, 98]] ∧
    (EchoPipe.feedEof
        (EchoPipe.feed [98] (EchoPipe.feed [97] EchoPipe.init))).items ≠
      (EchoPipe.feedEof (EchoPipe.feed [97, 98] EchoPipe.init)).items := by
  decide

/-- C2 (amended): for the parsers the module defines — the lines parser,
generalised to any nonempty delimiter `stop` with optional `limit`, and
the chunks parser over any positive block `size` — and every partitioning
B1…Bn of a byte string S, feeding the StreamBuffer the chunks B1…Bn
followed by EOF produces the same DataBuffer contents as feeding S in a
single chunk followed by EOF; in particular a single
`readuntil(stop, limit)` call driven with the chunks returns the same
outcome (same line, same "line too long" error, or same unread residue) as
driven with S in one chunk.  The law does not extend to arbitrary parsers:
a parser framing via `readsome` observes the chunking (see the
counterexample). -/
theorem c2_module_parsers_roundtrip (stop : List Nat) (limit : Option Nat)
    (size : Nat) (chunks : List (List Nat)) (hstop : stop ≠ [])
    (hsize : 0 < size) :
    (LinesPipe.feedEof (LinesPipe.feedAll stop limit chunks
        (LinesPipe.init stop limit))).obs =
      (LinesPipe.feedEof (LinesPipe.feedAll stop limit [chunks.flatten]
        (LinesPipe.init stop limit))).obs ∧
    (ChunksPipe.feedEof (ChunksPipe.feedAll size chunks
        (ChunksPipe.init size))).obs =
      (ChunksPipe.feedEof (ChunksPipe.feedAll size [chunks.flatten]
        (ChunksPipe.init size))).obs ∧
    driveReaduntil stop limit chunks PBuf.mk0 =
      driveReaduntil stop limit [chunks.flatten] PBuf.mk0 :=
  ⟨pipeline_roundtrip stop hstop limit chunks,
   chunks_roundtrip size hsize chunks,
   readuntil_roundtrip stop limit chunks⟩

/-- Witness for C2: two delimited lines plus trailing bytes, split in the
middle of a line, observed identically chunked and unchunked by the lines
parser (delimiter 10, limit 8), the chunks parser (size 3), and a single
readuntil call. -/
theorem c2_module_parsers_roundtrip_witness :
    (LinesPipe.feedEof (LinesPipe.feedAll [10] (some 8)
        [[1, 10], [2, 3, 10, 4]] (LinesPipe.init [10] (some 8)))).obs =
      (LinesPipe.feedEof (LinesPipe.feedAll [10] (some 8)
        [[1, 10, 2, 3, 10, 4]] (LinesPipe.init [10] (some 8)))).obs ∧
    (ChunksPipe.feedEof (ChunksPipe.feedAll 3 [[1, 10], [2, 3, 10, 4]]
        (ChunksPipe.init 3))).obs =
      (ChunksPipe.feedEof (ChunksPipe.feedAll 3 [[1, 10, 2, 3, 10, 4]]
        (ChunksPipe.init 3))).obs ∧
    driveReaduntil [10] (some 8) [[1, 10], [2, 3, 10, 4]] PBuf.mk0 =
      driveReaduntil [10] (some 8) [[1, 10, 2, 3, 10, 4]] PBuf.mk0 :=
  c2_module_parsers_roundtrip [10] (some 8) 3 [[1, 10], [2, 3, 10, 4]]
    (by decide) (by decide)

end Tulip
